import Mathlib

/-!
Verification of the VoxAlign alignment core against its specification.

The definitions below are a shallow embedding of the Python sources:
  * `src/voxalign/align/trellis.py` — CTC state expansion, Viterbi decoding,
    token-to-frame span extraction;
  * `src/voxalign/align/backends/uniform.py`, `ctc_trellis.py`,
    `phoneme_first.py` — the alignment backends;
  * `src/voxalign/core/pipeline.py`, `src/voxalign/io/audio.py` — timing and
    transcript resolution;
  * `src/voxalign/languages/registry.py` — language-pack resolution.

Modelling conventions:
  * Python floats are modelled as rationals `ℚ`; `float("-inf")` sentinels in
    the Viterbi lattice are modelled with `WithBot ℚ`, whose `⊥` is absorbing
    for `+` exactly like `-inf` is in the Python code.
  * `math.exp` is modelled by an arbitrary parameter function `expFn : ℚ → ℚ`;
    every theorem about confidences holds for all such functions because the
    code clamps the resulting means.
  * Python lists indexed in bounds are modelled with `List.getD`; the DP
    tables of `viterbi_state_path` are modelled as functions of frame and
    state built by structural recursion on the frame index.
  * `round(x, 3)` (banker's rounding) is modelled by `round3` below.
-/

/-- Round-half-to-even on rationals, the rounding mode of Python's `round`. -/
def roundHalfEven (q : ℚ) : ℤ :=
  let f := ⌊q⌋
  let r := q - f
  if r < 1/2 then f
  else if 1/2 < r then f + 1
  else if f % 2 = 0 then f else f + 1

/-- Python's `round(x, 3)`: banker's rounding to three decimal places. -/
def round3 (q : ℚ) : ℚ :=
  (roundHalfEven (q * 1000) : ℚ) / 1000

/-- `trellis.build_state_symbols`: expanded CTC state sequence
`[blank, token_0, blank, token_1, ..., token_n, blank]`. -/
def build_state_symbols (token_symbols : List ℕ) (blank_id : ℕ := 0) : List ℕ :=
  blank_id :: token_symbols.foldr (fun token_symbol rest => token_symbol :: blank_id :: rest) []

/-- The `scores` table of `trellis.viterbi_state_path`, as a function of
frame and state.  `sc` is `len(state_symbols)`, `E t v` is
`emissions[t][v]` and `S j` is `state_symbols[j]`.  Frame 0 sets states 0
and (when `sc > 1`) 1; later frames take the better of stay/move
(ties prefer stay) and skip the cell (leaving `-inf = ⊥`) when both
predecessors are `⊥`, exactly like the `continue` in the Python loop. -/
def vitScore (sc : ℕ) (E : ℕ → ℕ → WithBot ℚ) (S : ℕ → ℕ) : ℕ → ℕ → WithBot ℚ
  | 0 => fun j =>
      if j = 0 then E 0 (S 0)
      else if j = 1 ∧ 2 ≤ sc then E 0 (S 1)
      else ⊥
  | t + 1 => fun j =>
      if j < sc then
        let stay := vitScore sc E S t j
        let move := if 0 < j then vitScore sc E S t (j - 1) else ⊥
        let best := if stay < move then move else stay
        if best = ⊥ then ⊥ else best + E (t + 1) (S j)
      else ⊥

/-- The `backptr` table of `trellis.viterbi_state_path`.  Cells that the
Python code never assigns keep their initial value `0`. -/
def vitBack (sc : ℕ) (E : ℕ → ℕ → WithBot ℚ) (S : ℕ → ℕ) : ℕ → ℕ → ℕ
  | 0 => fun _ => 0
  | t + 1 => fun j =>
      if j < sc then
        let stay := vitScore sc E S t j
        let move := if 0 < j then vitScore sc E S t (j - 1) else ⊥
        let best := if stay < move then move else stay
        if best = ⊥ then 0
        else if stay < move then j - 1 else j
      else 0

/-- The end state selected by `max(end_candidates, key=...)` over
`[state_count - 1, state_count - 2]`: Python's `max` keeps the first
candidate on ties, so `sc - 2` is chosen only when strictly better. -/
def vitBestEnd (T sc : ℕ) (E : ℕ → ℕ → WithBot ℚ) (S : ℕ → ℕ) : ℕ :=
  if 2 ≤ sc ∧ vitScore sc E S (T - 1) (sc - 1) < vitScore sc E S (T - 1) (sc - 2) then sc - 2
  else sc - 1

/-- The back-trace cursor: `vitCursor T sc E S k` is the state the traced
path visits at frame `T - 1 - k` (so `k = 0` is the last frame). -/
def vitCursor (T sc : ℕ) (E : ℕ → ℕ → WithBot ℚ) (S : ℕ → ℕ) : ℕ → ℕ
  | 0 => vitBestEnd T sc E S
  | k + 1 => vitBack sc E S (T - 1 - k) (vitCursor T sc E S k)

/-- The decoded state path, frame by frame. -/
def vitPath (T sc : ℕ) (E : ℕ → ℕ → WithBot ℚ) (S : ℕ → ℕ) : List ℕ :=
  (List.range T).map (fun t => vitCursor T sc E S (T - 1 - t))

/-- The value `max(scores[T-1][sc-1], scores[T-1][sc-2])` that the decoder
maximises over the two admissible end states. -/
def vitEndMax (T sc : ℕ) (E : ℕ → ℕ → WithBot ℚ) (S : ℕ → ℕ) : WithBot ℚ :=
  max (vitScore sc E S (T - 1) (sc - 1)) (vitScore sc E S (T - 1) (sc - 2))

/-- Partial sums of emission scores along the traced path: `vitTail k` is
the contribution of the `k` frames strictly above frame `T - 1 - k`. -/
def vitTail (T sc : ℕ) (E : ℕ → ℕ → WithBot ℚ) (S : ℕ → ℕ) : ℕ → WithBot ℚ
  | 0 => 0
  | k + 1 => E (T - 1 - k) (S (vitCursor T sc E S k)) + vitTail T sc E S k

/-- `emissions[t][v]` with `⊥` (= `-inf`) outside the table. -/
def emisFun (emissions : List (List (WithBot ℚ))) : ℕ → ℕ → WithBot ℚ :=
  fun t v => (emissions.getD t []).getD v ⊥

/-- `state_symbols[j]` as a function. -/
def symFun (state_symbols : List ℕ) : ℕ → ℕ :=
  fun j => state_symbols.getD j 0

/-- `trellis.viterbi_state_path`.  `T = 0` returns the empty path before the
empty-state check; an empty `state_symbols` with `T ≥ 1` raises
`ValueError("state_symbols must not be empty")`, modelled as `Except.error`. -/
def viterbi_state_path (emissions : List (List (WithBot ℚ))) (state_symbols : List ℕ) :
    Except String (List ℕ) :=
  if emissions.length = 0 then Except.ok []
  else if state_symbols.length = 0 then Except.error "state_symbols must not be empty"
  else Except.ok
    (vitPath emissions.length state_symbols.length (emisFun emissions) (symFun state_symbols))

/-- Accumulated log-probability of a state path: the sum over frames `t`
(starting at `t0`) of `E t (S path[t])`. -/
def pathScore (E : ℕ → ℕ → WithBot ℚ) (S : ℕ → ℕ) : ℕ → List ℕ → WithBot ℚ
  | _, [] => 0
  | t, j :: rest => E t (S j) + pathScore E S (t + 1) rest

/-- `trellis.TokenFrameSpan`. -/
structure TokenFrameSpan where
  token_index : ℕ
  start_frame : ℕ
  end_frame : ℕ
deriving DecidableEq, Repr

/-- `trellis.token_spans_from_state_path`: for each token position the list
of frames whose decoded state is the token's odd state `1 + 2k` ; the Python
comprehension `[i for i, s in enumerate(state_path) if s == target]` is
modelled by filtering `List.range` over the path's indices. -/
def token_spans_from_state_path (state_path : List ℕ) (token_count : ℕ) :
    List TokenFrameSpan :=
  (List.range token_count).map (fun token_index =>
    let token_state_index := 1 + token_index * 2
    let token_frames :=
      (List.range state_path.length).filter (fun f => state_path.getD f 0 = token_state_index)
    match token_frames with
    | [] => { token_index := token_index, start_frame := 0, end_frame := 0 }
    | f :: rest =>
        { token_index := token_index, start_frame := f,
          end_frame := (f :: rest).getLastD 0 + 1 })

/-- `models.WordAlignment` (seconds and confidence as rationals). -/
structure WordAlignment where
  word : String
  start_sec : ℚ
  end_sec : ℚ
  confidence : ℚ
deriving DecidableEq, Repr

/-- `models.PhonemeAlignment`. -/
structure PhonemeAlignment where
  phoneme : String
  word_index : ℕ
  start_sec : ℚ
  end_sec : ℚ
  confidence : ℚ
deriving DecidableEq, Repr

/-- `backends.base.BackendResult`, with the `phonemes` field that the
phoneme-first backend populates (defaulting to `[]` as in the word
backends). -/
structure BackendResult where
  words : List WordAlignment
  model_id : String
  algorithm : String
  phonemes : List PhonemeAlignment := []
deriving DecidableEq, Repr

/-- `uniform.UniformBackend.align_words`: evenly distribute tokens over the
duration; the last word's end is pinned to `duration_sec`. -/
def uniform_align_words (tokens : List String) (duration_sec : ℚ) : BackendResult :=
  if tokens = [] then
    { words := [], model_id := "baseline-rule-v1", algorithm := "uniform-token-distribution" }
  else
    let step := duration_sec / tokens.length
    let words := (List.range tokens.length).map (fun (index : ℕ) =>
      let start := round3 (step * index)
      let e := round3 (step * ((index : ℚ) + 1))
      let end_sec := if index = tokens.length - 1 then duration_sec else e
      let confidence := round3 (max 0.75 (0.98 - (index : ℚ) * 0.01))
      { word := tokens.getD index "", start_sec := start, end_sec := end_sec,
        confidence := confidence : WordAlignment })
    { words := words, model_id := "baseline-rule-v1", algorithm := "uniform-token-distribution" }

/-- The `probabilities` list accumulated by the loops of
`ctc_trellis._word_confidence` and `phoneme_first._token_span_confidence`:
for each `(token_id, span)` pair with a non-degenerate span, one
`expFn(emissions[frame][token_id])` per covered frame. -/
def span_probs (expFn : ℚ → ℚ) (emissions : List (List ℚ)) :
    List (ℕ × TokenFrameSpan) → List ℚ
  | [] => []
  | (token_id, span) :: rest =>
      (if span.end_frame ≤ span.start_frame then []
       else (List.range' span.start_frame (span.end_frame - span.start_frame)).map
        (fun frame => expFn ((emissions.getD frame []).getD token_id 0)))
      ++ span_probs expFn emissions rest

/-- `ctc_trellis._word_confidence`: mean emission probability over covered
frames, clamped to `[0.55, 0.95]`, and `0.55` when nothing is covered. -/
def word_confidence (expFn : ℚ → ℚ) (emissions : List (List ℚ)) (token_ids : List ℕ)
    (token_spans : List TokenFrameSpan) : ℚ :=
  let probabilities := span_probs expFn emissions (token_ids.zip token_spans)
  if probabilities = [] then 0.55
  else min 0.95 (max 0.55 (probabilities.sum / probabilities.length))

/-- `phoneme_first._token_span_confidence`: same shape with the `[0.6, 0.95]`
clamp and `0.6` default. -/
def token_span_confidence (expFn : ℚ → ℚ) (emissions : List (List ℚ)) (token_ids : List ℕ)
    (token_spans : List TokenFrameSpan) : ℚ :=
  let probabilities := span_probs expFn emissions (token_ids.zip token_spans)
  if probabilities = [] then 0.6
  else min 0.95 (max 0.6 (probabilities.sum / probabilities.length))

/-- `ctc_trellis._word_alignments_from_token_spans`. -/
def word_alignments_from_token_spans (expFn : ℚ → ℚ) (words : List String)
    (duration_sec : ℚ) (emissions : List (List ℚ)) (token_ids : List ℕ)
    (word_token_spans : List (ℕ × ℕ)) (token_spans : List TokenFrameSpan) :
    List WordAlignment :=
  if words = [] then []
  else
    let frame_count := max 1 emissions.length
    let frame_sec := if 0 < duration_sec then duration_sec / frame_count else 0
    (List.range words.length).map (fun word_index =>
      let span := word_token_spans.getD word_index (0, 0)
      let word_token_spans_slice := (token_spans.drop span.1).take (span.2 - span.1)
      let word_token_ids := (token_ids.drop span.1).take (span.2 - span.1)
      let valid_spans := word_token_spans_slice.filter
        (fun s => decide (s.start_frame < s.end_frame))
      let start_frame := match valid_spans with
        | [] => 0
        | s :: _ => s.start_frame
      let end_frame := match valid_spans with
        | [] => 0
        | s :: rest => ((s :: rest).getLastD ⟨0, 0, 0⟩).end_frame
      let start_sec := round3 (start_frame * frame_sec)
      let e := round3 (end_frame * frame_sec)
      let end_sec := if word_index = words.length - 1 then duration_sec else e
      let confidence :=
        round3 (word_confidence expFn emissions word_token_ids word_token_spans_slice)
      { word := words.getD word_index "", start_sec := start_sec, end_sec := end_sec,
        confidence := confidence : WordAlignment })

/-- `phoneme_first._WordPhonemes`. -/
structure WordPhonemes where
  word : String
  phonemes : List String
deriving DecidableEq, Repr

/-- `phoneme_first._PhonemePack`: the result of the real phoneme provider
(`_try_real_phoneme_pack`); `none` models provider-not-available. -/
structure PhonemePack where
  phonemes : List PhonemeAlignment
  model_id : String
  algorithm : String
deriving DecidableEq, Repr

/-- The English letter-to-phone table of `phoneme_first._en_letter_to_ipa`. -/
def en_letter_to_ipa (letter : Char) : String :=
  if letter = 'a' then "ae" else if letter = 'b' then "b" else if letter = 'c' then "k"
  else if letter = 'd' then "d" else if letter = 'e' then "eh" else if letter = 'f' then "f"
  else if letter = 'g' then "g" else if letter = 'h' then "h" else if letter = 'i' then "ih"
  else if letter = 'j' then "jh" else if letter = 'k' then "k" else if letter = 'l' then "l"
  else if letter = 'm' then "m" else if letter = 'n' then "n" else if letter = 'o' then "ow"
  else if letter = 'p' then "p" else if letter = 'q' then "k" else if letter = 'r' then "r"
  else if letter = 's' then "s" else if letter = 't' then "t" else if letter = 'u' then "uw"
  else if letter = 'v' then "v" else if letter = 'w' then "w" else if letter = 'x' then "ks"
  else if letter = 'y' then "y" else if letter = 'z' then "z"
  else String.mk [letter]

/-- `phoneme_first._korean_word_to_ipa`: one "ko" per Hangul syllable. -/
def korean_word_to_ipa (word : String) : List String :=
  word.toList.filterMap (fun char =>
    if 0xAC00 ≤ char.toNat ∧ char.toNat ≤ 0xD7A3 then some "ko" else none)

/-- `phoneme_first._word_to_phonemes`.  Python's `str.casefold`/`isalpha`
are modelled by `Char.toLower`/`Char.isAlpha` (identical on ASCII input). -/
def word_to_phonemes (word : String) (language : Option String) : WordPhonemes :=
  let letters := (word.toList.map Char.toLower).filter Char.isAlpha
  let letterStrs := letters.map (fun c => String.mk [c])
  if language = some "ko" then
    let phones := korean_word_to_ipa word
    { word := word, phonemes := if phones = [] then letterStrs else phones }
  else if language = some "en" then
    let phones := letters.map en_letter_to_ipa
    { word := word, phonemes := if phones = [] then [word] else phones }
  else
    { word := word, phonemes := if letterStrs = [] then [word] else letterStrs }

/-- `phoneme_first._normalize_language_code`.  `strip`/`casefold`/
`replace("_","-")`/`split("-")[0]` are modelled on the character list
(`replace` with the one-character pattern is a character map; `split("-")[0]`
is `takeWhile (· ≠ '-')`). -/
def normalize_language_code (language_code : Option String) : Option String :=
  match language_code with
  | none => none
  | some c =>
      let cleaned := ((c.toList.dropWhile Char.isWhitespace).reverse.dropWhile
        Char.isWhitespace).reverse.map
        (fun ch => if Char.toLower ch = '_' then '-' else Char.toLower ch)
      if cleaned = [] then none
      else some (String.mk (cleaned.takeWhile (fun ch => ch ≠ '-')))

/-- The inner loop of `phoneme_first._align_phonemes_with_word_constraints`
over one word's phones. -/
def apwcPhones (word_index : ℕ) (wa : WordAlignment) (step : ℚ) :
    ℕ → List String → List PhonemeAlignment
  | _, [] => []
  | phone_index, phone :: rest =>
      let start := round3 (wa.start_sec + step * phone_index)
      let e := round3 (wa.start_sec + step * ((phone_index : ℚ) + 1))
      let end_sec := if rest = [] then wa.end_sec else e
      { phoneme := phone, word_index := word_index, start_sec := start, end_sec := end_sec,
        confidence := round3 (max 0.6 (wa.confidence - 0.03)) : PhonemeAlignment }
        :: apwcPhones word_index wa step (phone_index + 1) rest

/-- The outer `enumerate(zip(words, words_with_phonemes, strict=True))` loop
of `_align_phonemes_with_word_constraints`. -/
def apwcWords : ℕ → List (WordAlignment × WordPhonemes) → List PhonemeAlignment
  | _, [] => []
  | word_index, (wa, wp) :: rest =>
      let phones := if wp.phonemes = [] then [wp.word] else wp.phonemes
      let span := max 0 (wa.end_sec - wa.start_sec)
      let step := if 0 < span then span / phones.length else 0
      apwcPhones word_index wa step 0 phones ++ apwcWords (word_index + 1) rest

/-- `phoneme_first._align_phonemes_with_word_constraints`. -/
def align_phonemes_with_word_constraints (words : List WordAlignment)
    (words_with_phonemes : List WordPhonemes) : List PhonemeAlignment :=
  apwcWords 0 (words.zip words_with_phonemes)

/-- The inner phone loop of `phoneme_first._align_phonemes_globally`,
threading the global `cursor`; returns the alignments plus the new cursor. -/
def apgPhones (duration_sec step : ℚ) (total word_index : ℕ) :
    ℕ → List String → List PhonemeAlignment × ℕ
  | cursor, [] => ([], cursor)
  | cursor, phone :: rest =>
      let start := round3 (cursor * step)
      let cursor' := cursor + 1
      let e := round3 ((cursor' : ℚ) * step)
      let end_sec := if cursor' = total then duration_sec else e
      let tail := apgPhones duration_sec step total word_index cursor' rest
      ({ phoneme := phone, word_index := word_index, start_sec := start,
         end_sec := end_sec, confidence := 0.7 : PhonemeAlignment } :: tail.1, tail.2)

/-- The outer word loop of `_align_phonemes_globally`. -/
def apgWords (duration_sec step : ℚ) (total : ℕ) :
    ℕ → ℕ → List WordPhonemes → List PhonemeAlignment
  | _, _, [] => []
  | word_index, cursor, item :: rest =>
      let phones := if item.phonemes = [] then [item.word] else item.phonemes
      let this := apgPhones duration_sec step total word_index cursor phones
      this.1 ++ apgWords duration_sec step total (word_index + 1) this.2 rest

/-- `phoneme_first._align_phonemes_globally`: distribute every phone of every
word uniformly over the duration; the final phone's end is pinned. -/
def align_phonemes_globally (words_with_phonemes : List WordPhonemes)
    (duration_sec : ℚ) : List PhonemeAlignment :=
  let total := (words_with_phonemes.map (fun item => max 1 item.phonemes.length)).sum
  if total = 0 then []
  else
    let step := if 0 < duration_sec then duration_sec / total else 0
    apgWords duration_sec step total 0 0 words_with_phonemes

/-- `phoneme_first._group_words_from_phonemes`: per token, the phonemes with
that `word_index` (the Python `dict` grouping preserves this filtered order);
the last word's end is pinned to the duration. -/
def group_words_from_phonemes (tokens : List String) (phonemes : List PhonemeAlignment)
    (duration_sec : ℚ) : List WordAlignment :=
  (List.range tokens.length).map (fun (word_index : ℕ) =>
    let phones := phonemes.filter (fun p => decide (p.word_index = word_index))
    let start := match phones with
      | [] => (0 : ℚ)
      | q :: _ => q.start_sec
    let e := match phones with
      | [] => (0 : ℚ)
      | q :: rest => (((q :: rest).getLastD q).end_sec)
    let confidence := match phones with
      | [] => (0.6 : ℚ)
      | q :: rest => round3 (((q :: rest).map (fun p => p.confidence)).sum / ((q :: rest).length : ℚ))
    let end_sec := if word_index = tokens.length - 1 then duration_sec else e
    { word := tokens.getD word_index "", start_sec := start, end_sec := end_sec,
      confidence := confidence : WordAlignment })

/-- Default id `facebook/wav2vec2-xlsr-53-espeak-cv-ft` of
`phoneme_first._resolve_phoneme_model_id` (no environment override). -/
def PHONEME_MODEL_ID : String := "facebook/wav2vec2-xlsr-53-espeak-cv-ft"

/-- Algorithm tags of `phoneme_first`. -/
def ALGO_EN : String := "phoneme-first-en-word-ctc-then-ipa-constrained"

/-- Multilingual tag `_ALGO_MULTI`. -/
def ALGO_MULTI : String := "phoneme-first-multilingual-ipa-ctc"

/-- Fallback tag `_ALGO_MULTI_FALLBACK`. -/
def ALGO_MULTI_FALLBACK : String := "phoneme-first-multilingual-ipa-fallback-to-ctc-word"

/-- `phoneme_first.PhonemeFirstBackend.align_words`, with its two
collaborators passed as parameters: `wordResult` stands for
`self._word_backend.align_words(...)` and `realPack` for
`_try_real_phoneme_pack(...)` (`none` = provider not available). -/
def phoneme_first_align_words (tokens : List String) (duration_sec : ℚ)
    (language_code : Option String) (wordResult : BackendResult)
    (realPack : Option PhonemePack) : BackendResult :=
  if tokens = [] then
    { words := [], model_id := PHONEME_MODEL_ID, algorithm := ALGO_MULTI, phonemes := [] }
  else
    let language := normalize_language_code language_code
    let words_with_phonemes := tokens.map (fun token => word_to_phonemes token language)
    if language = some "en" then
      { words := wordResult.words,
        model_id := wordResult.model_id ++ "+" ++ PHONEME_MODEL_ID,
        algorithm := ALGO_EN ++ "+" ++ wordResult.algorithm,
        phonemes := align_phonemes_with_word_constraints wordResult.words words_with_phonemes }
    else
      let pack := match realPack with
        | none =>
            (align_phonemes_globally words_with_phonemes duration_sec,
             PHONEME_MODEL_ID, ALGO_MULTI)
        | some p => (p.phonemes, p.model_id, p.algorithm)
      if pack.1 = [] then
        { words := wordResult.words,
          model_id := pack.2.1 ++ "+" ++ wordResult.model_id,
          algorithm := ALGO_MULTI_FALLBACK ++ "+" ++ wordResult.algorithm,
          phonemes := [] }
      else
        { words := group_words_from_phonemes tokens pack.1 duration_sec,
          model_id := pack.2.1, algorithm := pack.2.2, phonemes := pack.1 }

/-- Python's `pat in s` substring test, over character lists. -/
def containsSub (s pat : String) : Bool :=
  let cs := s.toList
  let ps := pat.toList
  (List.range (cs.length + 1)).any (fun i => decide ((cs.drop i).take ps.length = ps))

/-- `io.audio.AudioMetadata`. -/
structure AudioMetadata where
  duration_sec : ℚ
  sample_rate_hz : ℕ
  audio_format : String
deriving DecidableEq, Repr

/-- `io.audio._read_wav_metadata`, parameterised by the frame count and
sample rate the `wave` module reads from a successfully parsed WAV file:
nonpositive rates yield `None`, otherwise the three-decimal duration. -/
def read_wav_metadata (frame_count : ℕ) (sample_rate : ℤ) : Option AudioMetadata :=
  if sample_rate ≤ 0 then none
  else some
    { duration_sec := round3 (max 0 ((frame_count : ℚ) / (sample_rate : ℚ))),
      sample_rate_hz := sample_rate.toNat, audio_format := "wav" }

/-- `core.pipeline._estimate_duration_sec`: `0.0` for no tokens (the Python
guard is `word_count <= 0`; counts are naturals here), otherwise
`round(max(1.0, word_count * 0.32), 3)`. -/
def estimate_duration_sec (word_count : ℕ) : ℚ :=
  if word_count = 0 then 0
  else round3 (max 1 ((word_count : ℚ) * 0.32))

/-- `core.pipeline._resolve_timing`: audio timing only when metadata exists
with positive duration, heuristic otherwise.  The triple is
`(duration_sec, sample_rate, timing_source)`. -/
def resolve_timing (metadata : Option AudioMetadata) (token_count : ℕ)
    (requested_sample_rate_hz : Option ℕ) : ℚ × Option ℕ × String :=
  match metadata with
  | some m =>
      if 0 < m.duration_sec then
        (m.duration_sec, some (requested_sample_rate_hz.getD m.sample_rate_hz), "audio")
      else (estimate_duration_sec token_count, requested_sample_rate_hz, "heuristic")
  | none => (estimate_duration_sec token_count, requested_sample_rate_hz, "heuristic")

/-- Python `str.strip` on the character list. -/
def pyStrip (s : String) : String :=
  String.mk ((s.toList.dropWhile Char.isWhitespace).reverse.dropWhile Char.isWhitespace).reverse

/-- `core.pipeline._resolve_transcript`, with the ASR collaborator's
transcript passed as `asrTranscript`.  Returns the transcript together with
the `transcript_source` tag, or the `ValueError` message (mapped to a 422 by
`api.create_app`). -/
def resolve_transcript (transcript : Option String) (asr : String)
    (asrTranscript : String) : Except String (String × String) :=
  let provided := match transcript with
    | some t => if pyStrip t ≠ "" then some (pyStrip t) else none
    | none => none
  match provided with
  | some t => Except.ok (t, "provided")
  | none =>
      if asr = "disabled" then Except.error "transcript is required when --asr is disabled"
      else
        let t := pyStrip asrTranscript
        if t = "" then Except.error "ASR did not return a transcript"
        else Except.ok (t, "asr")

/-- The `transcript` field constraint of `models.AlignRequest`
(`transcript: str = Field(min_length=1)`): the field is required and must be
a non-empty string, so `none` (an absent transcript) fails validation. -/
def align_request_transcript_valid (transcript : Option String) : Bool :=
  match transcript with
  | none => false
  | some t => 1 ≤ t.length

/-- `languages.base.BaseLanguagePack` data. -/
structure LanguagePack where
  code : String
  name : String
  normalizer_id : String
deriving DecidableEq, Repr

/-- `languages.english.ENGLISH_PACK`. -/
def ENGLISH_PACK : LanguagePack :=
  { code := "en", name := "English", normalizer_id := "english-basic-v1" }

/-- `languages.generic.GENERIC_PACK`. -/
def GENERIC_PACK : LanguagePack :=
  { code := "und", name := "Undetermined", normalizer_id := "generic-unicode-v1" }

/-- `languages.registry._EUROPEAN_CODES`. -/
def EUROPEAN_CODES : List String :=
  ["bg", "ca", "cs", "cy", "da", "de", "el", "es", "et", "eu", "fi", "fr", "ga", "gl",
   "hr", "hu", "is", "it", "lt", "lv", "mk", "mt", "nl", "no", "pl", "pt", "ro", "sk",
   "sl", "sq", "sr", "sv"]

/-- Python `str.upper` on the character list (ASCII codes here). -/
def pyUpper (s : String) : String :=
  String.mk (s.toList.map Char.toUpper)

/-- The `_LANGUAGE_PACKS` dictionary of `languages.registry`: English,
`und`, Korean and the European codes as `GenericLanguagePack(code, ...)`
instances; everything else is absent. -/
def lookup_language_pack (canonical : String) : Option LanguagePack :=
  if canonical = "en" then some ENGLISH_PACK
  else if canonical = "und" then some GENERIC_PACK
  else if canonical = "ko" then
    some { code := "ko", name := "Korean", normalizer_id := "generic-unicode-v1" }
  else if canonical ∈ EUROPEAN_CODES then
    some { code := canonical, name := pyUpper canonical, normalizer_id := "generic-unicode-v1" }
  else none

/-- The `_ALIASES` dictionary of `languages.registry`. -/
def language_aliases (code : String) : Option String :=
  if code = "auto" then some "und"
  else if code = "en-us" then some "en"
  else if code = "en-gb" then some "en"
  else if code = "en-ca" then some "en"
  else if code = "en-au" then some "en"
  else if code = "ko-kr" then some "ko"
  else none

/-- Python `str.casefold` on the character list (ASCII lowering). -/
def pyCasefold (s : String) : String :=
  String.mk (s.toList.map Char.toLower)

/-- `languages.registry.resolve_language_pack`. -/
def resolve_language_pack (language_code : String) : LanguagePack :=
  let cf := pyCasefold language_code
  let canonical := (language_aliases cf).getD cf
  (lookup_language_pack canonical).getD GENERIC_PACK

/-- The `language` recorded in `AlignmentMetadata` by
`core.pipeline.run_alignment` on the no-ASR path with a non-"auto" request
language: `_resolve_final_language_pack` re-resolves the initially resolved
pack's code, and `metadata.language = language_pack.code`. -/
def pipeline_metadata_language (request_language : String) : String :=
  (resolve_language_pack ((resolve_language_pack request_language).code)).code

/-! ## Helper lemmas -/

theorem getLastD_append_singleton {α : Type} (l : List α) (a d : α) :
    (l ++ [a]).getLastD d = a := by
  induction l generalizing d with
  | nil => rfl
  | cons b t ih => rw [List.cons_append, List.getLastD_cons]; exact ih b

theorem getLastD_mem {α : Type} (l : List α) (h : l ≠ []) (d : α) : l.getLastD d ∈ l := by
  induction l generalizing d with
  | nil => exact absurd rfl h
  | cons a t ih =>
      rw [List.getLastD_cons]
      cases t with
      | nil => simp [List.getLastD]
      | cons b u => exact List.mem_cons_of_mem a (ih (by simp) a)

theorem getD_map_range {α : Type} (n : ℕ) (f : ℕ → α) (t : ℕ) (h : t < n) (d : α) :
    ((List.range n).map f).getD t d = f t := by
  rw [List.getD_eq_getElem?_getD, List.getElem?_map, List.getElem?_range h]; rfl

theorem getLastD_map_range {α : Type} (n : ℕ) (hn : n ≠ 0) (f : ℕ → α) (d : α) :
    ((List.range n).map f).getLastD d = f (n - 1) := by
  obtain ⟨m, rfl⟩ : ∃ m, n = m + 1 := ⟨n - 1, (Nat.succ_pred_eq_of_pos (Nat.pos_of_ne_zero hn)).symm⟩
  rw [List.range_succ, List.map_append, List.map_singleton, getLastD_append_singleton]
  simp

theorem floor_le_roundHalfEven (x : ℚ) : ⌊x⌋ ≤ roundHalfEven x := by
  simp only [roundHalfEven]
  split
  · exact le_refl _
  · split
    · omega
    · split <;> omega

theorem roundHalfEven_le_ceil (x : ℚ) : roundHalfEven x ≤ ⌈x⌉ := by
  have hfc : ⌊x⌋ ≤ ⌈x⌉ := Int.floor_le_ceil x
  have hstep : ¬ x - ⌊x⌋ < 1/2 → ⌊x⌋ + 1 ≤ ⌈x⌉ := by
    intro h
    have h1 : (1:ℚ)/2 ≤ x - ⌊x⌋ := not_lt.mp h
    have h2 : (⌊x⌋ : ℚ) < x := by linarith
    have h3 : (⌊x⌋ : ℚ) < (⌈x⌉ : ℚ) := lt_of_lt_of_le h2 (Int.le_ceil x)
    exact Int.add_one_le_iff.mpr (by exact_mod_cast h3)
  simp only [roundHalfEven]
  split
  · exact hfc
  · rename_i h
    split
    · exact hstep h
    · split
      · exact hfc
      · exact hstep h

theorem round3_le (z : ℤ) (x : ℚ) (h : x ≤ (z : ℚ) / 1000) : round3 x ≤ (z : ℚ) / 1000 := by
  have hx : x * 1000 ≤ (z : ℚ) := by linarith
  have h1 : roundHalfEven (x * 1000) ≤ ⌈x * 1000⌉ := roundHalfEven_le_ceil _
  have h2 : ⌈x * 1000⌉ ≤ z := Int.ceil_le.mpr hx
  have h3 : (roundHalfEven (x * 1000) : ℚ) ≤ (z : ℚ) := by exact_mod_cast le_trans h1 h2
  unfold round3
  have h1000 : (0:ℚ) ≤ 1000 := by norm_num
  exact div_le_div_of_nonneg_right h3 h1000

theorem le_round3 (z : ℤ) (x : ℚ) (h : (z : ℚ) / 1000 ≤ x) : (z : ℚ) / 1000 ≤ round3 x := by
  have hx : (z : ℚ) ≤ x * 1000 := by linarith
  have h1 : z ≤ ⌊x * 1000⌋ := Int.le_floor.mpr hx
  have h2 : ⌊x * 1000⌋ ≤ roundHalfEven (x * 1000) := floor_le_roundHalfEven _
  have h3 : (z : ℚ) ≤ (roundHalfEven (x * 1000) : ℚ) := by exact_mod_cast le_trans h1 h2
  unfold round3
  have h1000 : (0:ℚ) ≤ 1000 := by norm_num
  exact div_le_div_of_nonneg_right h3 h1000

theorem round3_nonneg (x : ℚ) (h : 0 ≤ x) : 0 ≤ round3 x := by
  have := le_round3 0 x (by simpa using h)
  simpa using this

theorem round3_zero : round3 0 = 0 := by
  have h1 := round3_le 0 0 (by norm_num)
  have h2 := le_round3 0 0 (by norm_num)
  simp only [Int.cast_zero, zero_div] at h1 h2
  exact le_antisymm h1 h2

theorem roundHalfEven_intCast (z : ℤ) : roundHalfEven (z : ℚ) = z := by
  simp only [roundHalfEven, Int.floor_intCast]
  norm_num

theorem round3_thousandths (z : ℤ) : round3 ((z : ℚ) / 1000) = (z : ℚ) / 1000 := by
  unfold round3
  have h : (z : ℚ) / 1000 * 1000 = (z : ℚ) := by field_simp
  rw [h, roundHalfEven_intCast]

theorem round3_one : round3 1 = 1 := by
  have := round3_thousandths 1000
  norm_num at this
  exact this

/-! ## C10: Viterbi edge cases -/

/-- C10 (counterexample): with `T = 0` and `|S| = 0` the decoder returns the
empty path and does not raise, refuting "fails with an InvalidState-class
error whenever the state-symbol sequence is empty". -/
theorem viterbi_empty_counterexample :
    viterbi_state_path ([] : List (List (WithBot ℚ))) ([] : List ℕ) = Except.ok [] ∧
    (Except.ok ([] : List ℕ) : Except String (List ℕ)) ≠
      Except.error "state_symbols must not be empty" := by
  exact ⟨rfl, by simp⟩

/-- C10 (amended): `viterbi_state_path` returns the empty path whenever
`T = 0` — including when `|S| = 0`, since the frame-count check precedes the
state check — raises the InvalidState error exactly when `T ≥ 1` and
`|S| = 0`, and otherwise succeeds with a path of length `T`. -/
theorem viterbi_edge_cases (emissions : List (List (WithBot ℚ))) (state_symbols : List ℕ) :
    (emissions = [] → viterbi_state_path emissions state_symbols = Except.ok []) ∧
    (emissions ≠ [] → state_symbols = [] →
      viterbi_state_path emissions state_symbols =
        Except.error "state_symbols must not be empty") ∧
    (emissions ≠ [] → state_symbols ≠ [] →
      ∃ path, viterbi_state_path emissions state_symbols = Except.ok path ∧
        path.length = emissions.length) := by
  refine ⟨fun h => ?_, fun h1 h2 => ?_, fun h1 h2 => ?_⟩
  · simp [viterbi_state_path, h]
  · have hl1 : emissions.length ≠ 0 := by simpa [List.length_eq_zero] using h1
    simp [viterbi_state_path, hl1, h2]
  · have hl1 : emissions.length ≠ 0 := by simpa [List.length_eq_zero] using h1
    have hl2 : state_symbols.length ≠ 0 := by simpa [List.length_eq_zero] using h2
    refine ⟨vitPath emissions.length state_symbols.length (emisFun emissions)
      (symFun state_symbols), ?_, ?_⟩
    · simp [viterbi_state_path, hl1, hl2]
    · simp [vitPath]

/-- C10 (witness): at one frame of emissions and an empty state sequence the
InvalidState error is raised; with a singleton state sequence the call
succeeds with a length-1 path. -/
theorem viterbi_edge_cases_witness :
    viterbi_state_path [[((0 : ℚ) : WithBot ℚ)]] ([] : List ℕ) =
      Except.error "state_symbols must not be empty" ∧
    (∃ path, viterbi_state_path [[((0 : ℚ) : WithBot ℚ)]] [0] = Except.ok path ∧
      path.length = [[((0 : ℚ) : WithBot ℚ)]].length) :=
  ⟨(viterbi_edge_cases [[((0 : ℚ) : WithBot ℚ)]] []).2.1 (by simp) rfl,
   (viterbi_edge_cases [[((0 : ℚ) : WithBot ℚ)]] [0]).2.2 (by simp) (by simp)⟩

/-! ## C7: heuristic and audio timing -/

/-- C7 (counterexample): with no parsable WAV and zero tokens the resolved
duration is `0.0`, not `max(1.0, 0.32·0) = 1.0` as claimed; and a WAV that
parses with zero frames (duration 0) is routed to the heuristic source, not
"audio". -/
theorem timing_counterexample :
    (resolve_timing none 0 none).1 = 0 ∧
    round3 (max 1 ((0 : ℚ) * 0.32)) = 1 ∧
    (0 : ℚ) ≠ 1 ∧
    (resolve_timing (read_wav_metadata 0 16000) 2 none).2.2 = "heuristic" ∧
    ("heuristic" : String) ≠ "audio" := by
  refine ⟨rfl, ?_, by norm_num, ?_, by simp⟩
  · have : max (1 : ℚ) ((0 : ℚ) * 0.32) = 1 := by norm_num
    rw [this, round3_one]
  · have h0 : max (0 : ℚ) ((0 : ℚ) / 16000) = 0 := by norm_num
    simp only [read_wav_metadata, resolve_timing]
    norm_num [h0, round3_zero]

/-- C7 (amended): the heuristic duration `round3(max(1.0, 0.32·n))` with
timing_source "heuristic" applies when no WAV metadata is available and
`n ≥ 1`; `n = 0` yields duration `0.0`.  The parsed-WAV duration
(frames/rate, three decimals) with timing_source "audio" is used only when
that duration is positive. -/
theorem timing_resolution (token_count : ℕ) (req : Option ℕ) (m : AudioMetadata)
    (frame_count : ℕ) (sample_rate : ℤ)
    (h1 : 1 ≤ token_count) (hm : 0 < m.duration_sec) (hr : 0 < sample_rate) :
    resolve_timing none token_count req =
      (round3 (max 1 ((token_count : ℚ) * 0.32)), req, "heuristic") ∧
    resolve_timing none 0 req = (0, req, "heuristic") ∧
    resolve_timing (some m) token_count req =
      (m.duration_sec, some (req.getD m.sample_rate_hz), "audio") ∧
    read_wav_metadata frame_count sample_rate =
      some { duration_sec := round3 ((frame_count : ℚ) / (sample_rate : ℚ)),
             sample_rate_hz := sample_rate.toNat, audio_format := "wav" } := by
  have hn : token_count ≠ 0 := by omega
  refine ⟨?_, ?_, ?_, ?_⟩
  · simp [resolve_timing, estimate_duration_sec, hn]
  · simp [resolve_timing, estimate_duration_sec]
  · simp [resolve_timing, hm]
  · have hq : (0 : ℚ) < (sample_rate : ℚ) := by exact_mod_cast hr
    have hmax : max (0 : ℚ) ((frame_count : ℚ) / (sample_rate : ℚ)) =
        (frame_count : ℚ) / (sample_rate : ℚ) :=
      max_eq_right (div_nonneg (by positivity) hq.le)
    simp [read_wav_metadata, not_le.mpr hr, hmax]

/-- C7 (witness): two tokens without audio give the 1.0-second heuristic
duration; a one-second 16 kHz WAV gives audio timing. -/
theorem timing_resolution_witness :
    resolve_timing none 2 none = (round3 (max 1 ((2 : ℚ) * 0.32)), none, "heuristic") ∧
    resolve_timing none 0 none = (0, none, "heuristic") ∧
    resolve_timing (some ⟨1, 16000, "wav"⟩) 2 none = (1, some 16000, "audio") ∧
    read_wav_metadata 16000 16000 =
      some { duration_sec := round3 ((16000 : ℚ) / (16000 : ℚ)),
             sample_rate_hz := (16000 : ℤ).toNat, audio_format := "wav" } :=
  timing_resolution 2 none ⟨1, 16000, "wav"⟩ 16000 16000 (by norm_num) (by norm_num)
    (by norm_num)

/-! ## C8: optional transcript via ASR -/

/-- C8 (code bug): `core.pipeline._resolve_transcript` (and the repository's
tests) treat the transcript as optional — absent transcript with ASR enabled
succeeds with source "asr", and with ASR disabled raises the ValueError that
`api.create_app` maps to a 422 — but `models.AlignRequest` declares
`transcript: str = Field(min_length=1)`, a required non-empty field, so the
very requests the pipeline and tests expect are rejected at validation. -/
theorem transcript_optionality_contradiction :
    align_request_transcript_valid none = false ∧
    resolve_transcript none "auto" "hello world" = Except.ok ("hello world", "asr") ∧
    resolve_transcript none "disabled" "hello world" =
      Except.error "transcript is required when --asr is disabled" ∧
    resolve_transcript (some "   ") "disabled" "x" =
      Except.error "transcript is required when --asr is disabled" ∧
    resolve_transcript (some "hello world") "disabled" "x" =
      Except.ok ("hello world", "provided") := by
  exact ⟨rfl, rfl, rfl, rfl, rfl⟩

/-! ## C9: unknown language codes -/

/-- C9 (counterexample): the unregistered code "xx" resolves to the generic
pack, whose code is "und"; the pipeline records the pack's code, so the
metadata language is "und" — the requested code "xx" is not preserved. -/
theorem unknown_language_counterexample :
    resolve_language_pack "xx" = GENERIC_PACK ∧
    GENERIC_PACK.code = "und" ∧
    pipeline_metadata_language "xx" = "und" ∧
    ("und" : String) ≠ "xx" := by
  decide

/-- C9 (amended): any code whose canonical form is not registered resolves
to the generic pack, and the language recorded in metadata is the generic
pack's own code "und", not the requested code. -/
theorem unknown_language_resolves_generic (code : String)
    (h : lookup_language_pack
      ((language_aliases (pyCasefold code)).getD (pyCasefold code)) = none) :
    resolve_language_pack code = GENERIC_PACK ∧
    pipeline_metadata_language code = "und" := by
  have hres : resolve_language_pack code = GENERIC_PACK := by
    simp only [resolve_language_pack]
    rw [h]
    rfl
  refine ⟨hres, ?_⟩
  unfold pipeline_metadata_language
  rw [hres]
  decide

/-- C9 (witness): instantiated at the unknown code "xx". -/
theorem unknown_language_resolves_generic_witness :
    resolve_language_pack "xx" = GENERIC_PACK ∧
    pipeline_metadata_language "xx" = "und" :=
  unknown_language_resolves_generic "xx" (by decide)

/-! ## C5: fallback behavior of the phoneme-first backend -/

theorem apgPhones_cons (duration_sec step : ℚ) (total word_index cursor : ℕ)
    (phone : String) (rest : List String) :
    (apgPhones duration_sec step total word_index cursor (phone :: rest)).1 ≠ [] := by
  simp [apgPhones]

theorem align_phonemes_globally_ne_nil (words_with_phonemes : List WordPhonemes)
    (h : words_with_phonemes ≠ []) (duration_sec : ℚ) :
    align_phonemes_globally words_with_phonemes duration_sec ≠ [] := by
  obtain ⟨item, rest, rfl⟩ : ∃ item rest, words_with_phonemes = item :: rest := by
    cases words_with_phonemes with
    | nil => exact absurd rfl h
    | cons a l => exact ⟨a, l, rfl⟩
  unfold align_phonemes_globally
  have htot : ((item :: rest).map (fun it => max 1 it.phonemes.length)).sum ≠ 0 := by
    simp only [List.map_cons, List.sum_cons]
    have : 1 ≤ max 1 item.phonemes.length := le_max_left _ _
    omega
  rw [if_neg htot]
  simp only [apgWords]
  intro hcontra
  rcases List.append_eq_nil.mp hcontra with ⟨h1, -⟩
  revert h1
  cases hph : item.phonemes with
  | nil => simpa [hph] using apgPhones_cons _ _ _ _ _ item.word []
  | cons p ps => simpa [hph] using apgPhones_cons _ _ _ _ _ p ps

/-- C5 (counterexample): for the Korean (non-English) token list ["ab"] with
the real phoneme provider unavailable, the returned algorithm tag is the
plain multilingual tag — it does not contain "fallback" — and the phoneme
list is non-empty, refuting the claim on both counts. -/
theorem phoneme_fallback_counterexample :
    containsSub (phoneme_first_align_words ["ab"] 1 (some "ko")
      { words := [], model_id := "m", algorithm := "a" } none).algorithm "fallback" = false ∧
    (phoneme_first_align_words ["ab"] 1 (some "ko")
      { words := [], model_id := "m", algorithm := "a" } none).phonemes ≠ [] := by
  constructor
  · decide
  · decide

/-- C5 (amended): when the real phoneme provider is not available for a
non-English alignment with a non-empty token list, the backend does not take
the fallback-to-word branch: it uses the uniform global phoneme
distribution, so the algorithm tag is exactly
"phoneme-first-multilingual-ipa-ctc" (which does not contain "fallback")
and the returned phoneme list is non-empty.  The "…fallback-to-ctc-word"
tag together with an empty phoneme list occurs only when the phoneme path
produces no phonemes at all. -/
theorem phoneme_provider_unavailable_uniform (tokens : List String) (duration_sec : ℚ)
    (language_code : Option String) (wordResult : BackendResult)
    (htok : tokens ≠ [])
    (hlang : normalize_language_code language_code ≠ some "en") :
    (phoneme_first_align_words tokens duration_sec language_code wordResult none).algorithm
      = ALGO_MULTI ∧
    (phoneme_first_align_words tokens duration_sec language_code wordResult none).phonemes
      ≠ [] := by
  have hglob : align_phonemes_globally
      (tokens.map (fun token => word_to_phonemes token (normalize_language_code language_code)))
      duration_sec ≠ [] := by
    refine align_phonemes_globally_ne_nil _ ?_ _
    simpa using htok
  unfold phoneme_first_align_words
  rw [if_neg htok, if_neg hlang]
  simp only []
  rw [if_neg hglob]
  exact ⟨rfl, hglob⟩

/-- C5 (witness): instantiated at the Korean token list ["ab"]. -/
theorem phoneme_provider_unavailable_uniform_witness :
    (phoneme_first_align_words ["ab"] 1 (some "ko")
      { words := [], model_id := "m", algorithm := "a" } none).algorithm = ALGO_MULTI ∧
    (phoneme_first_align_words ["ab"] 1 (some "ko")
      { words := [], model_id := "m", algorithm := "a" } none).phonemes ≠ [] :=
  phoneme_provider_unavailable_uniform ["ab"] 1 (some "ko")
    { words := [], model_id := "m", algorithm := "a" } (by simp) (by decide)

/-! ## C3: token-span extraction -/

theorem pairwise_lt_le_getLastD (l : List ℕ) (hl : l.Pairwise (· < ·)) (x : ℕ)
    (hx : x ∈ l) (d : ℕ) : x ≤ l.getLastD d := by
  induction l generalizing d with
  | nil => cases hx
  | cons a t ih =>
      rw [List.getLastD_cons]
      rcases List.mem_cons.mp hx with rfl | hxt
      · cases t with
        | nil => simp [List.getLastD]
        | cons b u =>
            have hmem : (b :: u).getLastD x ∈ b :: u := getLastD_mem (b :: u) (by simp) x
            exact le_of_lt ((List.pairwise_cons.mp hl).1 _ hmem)
      · exact ih (List.pairwise_cons.mp hl).2 hxt a

theorem mem_filter_range (L target : ℕ) (path : List ℕ) (t : ℕ) :
    (t ∈ (List.range L).filter (fun f => decide (path.getD f 0 = target))) ↔
      t < L ∧ path.getD t 0 = target := by
  simp [List.mem_filter, List.mem_range]

/-- C3: `token_spans_from_state_path` returns exactly `N` spans, one per
token position in order; when some frame's state is `2k+1` the span is
`[least such frame, greatest such frame + 1)`, otherwise the degenerate
`(0, 0)` span is returned (the function is total, no error is raised). -/
theorem token_spans_spec (state_path : List ℕ) (token_count : ℕ) :
    (token_spans_from_state_path state_path token_count).length = token_count ∧
    (∀ k, k < token_count →
      ((token_spans_from_state_path state_path token_count).getD k ⟨0, 0, 0⟩).token_index
        = k) ∧
    (∀ k, k < token_count →
      (∃ t, t < state_path.length ∧ state_path.getD t 0 = 2 * k + 1) →
      (let span := (token_spans_from_state_path state_path token_count).getD k ⟨0, 0, 0⟩
       span.start_frame < state_path.length ∧
       state_path.getD span.start_frame 0 = 2 * k + 1 ∧
       (∀ t, t < state_path.length → state_path.getD t 0 = 2 * k + 1 →
         span.start_frame ≤ t ∧ t + 1 ≤ span.end_frame) ∧
       (∃ t, t < state_path.length ∧ state_path.getD t 0 = 2 * k + 1 ∧
         span.end_frame = t + 1))) ∧
    (∀ k, k < token_count →
      (∀ t, t < state_path.length → state_path.getD t 0 ≠ 2 * k + 1) →
      (token_spans_from_state_path state_path token_count).getD k ⟨0, 0, 0⟩
        = ⟨k, 0, 0⟩) := by
  have htar : ∀ k : ℕ, 1 + k * 2 = 2 * k + 1 := by omega
  have hspan : ∀ k, k < token_count →
      (token_spans_from_state_path state_path token_count).getD k ⟨0, 0, 0⟩ =
      (match (List.range state_path.length).filter
          (fun f => decide (state_path.getD f 0 = 1 + k * 2)) with
       | [] => ⟨k, 0, 0⟩
       | f :: rest => ⟨k, f, (f :: rest).getLastD 0 + 1⟩ : TokenFrameSpan) := by
    intro k hk
    unfold token_spans_from_state_path
    rw [getD_map_range _ _ _ hk]
  refine ⟨by simp [token_spans_from_state_path], ?_, ?_, ?_⟩
  · intro k hk
    rw [hspan k hk]
    cases hfr : (List.range state_path.length).filter
        (fun f => decide (state_path.getD f 0 = 1 + k * 2)) with
    | nil => rfl
    | cons f rest => rfl
  · intro k hk hex
    rw [hspan k hk]
    have hsorted : ((List.range state_path.length).filter
        (fun f => decide (state_path.getD f 0 = 1 + k * 2))).Pairwise (· < ·) :=
      List.Pairwise.filter _ (List.pairwise_lt_range _)
    cases hfr : (List.range state_path.length).filter
        (fun f => decide (state_path.getD f 0 = 1 + k * 2)) with
    | nil =>
        obtain ⟨t, ht, hvt⟩ := hex
        have : t ∈ (List.range state_path.length).filter
            (fun f => decide (state_path.getD f 0 = 1 + k * 2)) :=
          (mem_filter_range _ _ _ _).mpr ⟨ht, by rw [htar k]; exact hvt⟩
        rw [hfr] at this
        cases this
    | cons f rest =>
        rw [hfr] at hsorted
        have hfmem : f ∈ (List.range state_path.length).filter
            (fun g => decide (state_path.getD g 0 = 1 + k * 2)) := by
          rw [hfr]; exact List.mem_cons_self f rest
        obtain ⟨hfL, hfv⟩ := (mem_filter_range _ _ _ _).mp hfmem
        have hlast_mem : (f :: rest).getLastD 0 ∈ f :: rest :=
          getLastD_mem (f :: rest) (by simp) 0
        refine ⟨hfL, by rw [← htar k]; exact hfv, ?_, ?_⟩
        · intro t htl htv
          have htmem : t ∈ (List.range state_path.length).filter
              (fun g => decide (state_path.getD g 0 = 1 + k * 2)) :=
            (mem_filter_range _ _ _ _).mpr ⟨htl, by rw [htar k]; exact htv⟩
          rw [hfr] at htmem
          constructor
          · rcases List.mem_cons.mp htmem with rfl | htr
            · exact le_refl _
            · exact le_of_lt ((List.pairwise_cons.mp hsorted).1 _ htr)
          · have hle := pairwise_lt_le_getLastD (f :: rest) hsorted t htmem 0
            show t + 1 ≤ (f :: rest).getLastD 0 + 1
            omega
        · have hmem2 : (f :: rest).getLastD 0 ∈ (List.range state_path.length).filter
              (fun g => decide (state_path.getD g 0 = 1 + k * 2)) := by
            rw [hfr]; exact hlast_mem
          obtain ⟨hlL, hlv⟩ := (mem_filter_range _ _ _ _).mp hmem2
          exact ⟨(f :: rest).getLastD 0, hlL, by rw [← htar k]; exact hlv, rfl⟩
  · intro k hk hnone
    rw [hspan k hk]
    cases hfr : (List.range state_path.length).filter
        (fun f => decide (state_path.getD f 0 = 1 + k * 2)) with
    | nil => rfl
    | cons f rest =>
        have hfmem : f ∈ (List.range state_path.length).filter
            (fun g => decide (state_path.getD g 0 = 1 + k * 2)) := by
          rw [hfr]; exact List.mem_cons_self f rest
        obtain ⟨hfL, hfv⟩ := (mem_filter_range _ _ _ _).mp hfmem
        exact absurd (by rw [htar k] at hfv; exact hfv) (hnone f hfL)

/-- C3 (witness): the path of spec scenario 6, `[1, 1, 3, 3]` over two
tokens, instantiates the span characterization. -/
theorem token_spans_spec_witness :
    (token_spans_from_state_path [1, 1, 3, 3] 2).length = 2 ∧
    (∀ k, k < 2 →
      ((token_spans_from_state_path [1, 1, 3, 3] 2).getD k ⟨0, 0, 0⟩).token_index = k) ∧
    (∀ k, k < 2 →
      (∃ t, t < [1, 1, 3, 3].length ∧ [1, 1, 3, 3].getD t 0 = 2 * k + 1) →
      (let span := (token_spans_from_state_path [1, 1, 3, 3] 2).getD k ⟨0, 0, 0⟩
       span.start_frame < [1, 1, 3, 3].length ∧
       [1, 1, 3, 3].getD span.start_frame 0 = 2 * k + 1 ∧
       (∀ t, t < [1, 1, 3, 3].length → [1, 1, 3, 3].getD t 0 = 2 * k + 1 →
         span.start_frame ≤ t ∧ t + 1 ≤ span.end_frame) ∧
       (∃ t, t < [1, 1, 3, 3].length ∧ [1, 1, 3, 3].getD t 0 = 2 * k + 1 ∧
         span.end_frame = t + 1))) ∧
    (∀ k, k < 2 →
      (∀ t, t < [1, 1, 3, 3].length → [1, 1, 3, 3].getD t 0 ≠ 2 * k + 1) →
      (token_spans_from_state_path [1, 1, 3, 3] 2).getD k ⟨0, 0, 0⟩ = ⟨k, 0, 0⟩) :=
  token_spans_spec [1, 1, 3, 3] 2

/-! ## C4 and C6 helper lemmas -/

theorem round3_bounds (lo hi : ℤ) (x : ℚ) (h1 : (lo : ℚ) / 1000 ≤ x)
    (h2 : x ≤ (hi : ℚ) / 1000) :
    (lo : ℚ) / 1000 ≤ round3 x ∧ round3 x ≤ (hi : ℚ) / 1000 :=
  ⟨le_round3 lo x h1, round3_le hi x h2⟩

theorem span_probs_nil_of_degenerate (expFn : ℚ → ℚ) (emissions : List (List ℚ))
    (l : List (ℕ × TokenFrameSpan)) (h : ∀ p ∈ l, p.2.end_frame ≤ p.2.start_frame) :
    span_probs expFn emissions l = [] := by
  induction l with
  | nil => rfl
  | cons p rest ih =>
      obtain ⟨tid, span⟩ := p
      have hp : span.end_frame ≤ span.start_frame := h (tid, span) (List.mem_cons_self _ _)
      simp only [span_probs, if_pos hp, List.nil_append]
      exact ih (fun q hq => h q (List.mem_cons_of_mem _ hq))

theorem word_confidence_bounds (expFn : ℚ → ℚ) (emissions : List (List ℚ))
    (token_ids : List ℕ) (token_spans : List TokenFrameSpan) :
    0.55 ≤ word_confidence expFn emissions token_ids token_spans ∧
    word_confidence expFn emissions token_ids token_spans ≤ 0.95 := by
  simp only [word_confidence]
  by_cases h : span_probs expFn emissions (token_ids.zip token_spans) = []
  · simp only [h, if_pos]
    norm_num
  · simp only [if_neg h]
    constructor
    · exact le_min (by norm_num) (le_max_left _ _)
    · exact min_le_left _ _

theorem token_span_confidence_bounds (expFn : ℚ → ℚ) (emissions : List (List ℚ))
    (token_ids : List ℕ) (token_spans : List TokenFrameSpan) :
    0.6 ≤ token_span_confidence expFn emissions token_ids token_spans ∧
    token_span_confidence expFn emissions token_ids token_spans ≤ 0.95 := by
  simp only [token_span_confidence]
  by_cases h : span_probs expFn emissions (token_ids.zip token_spans) = []
  · simp only [h, if_pos]
    norm_num
  · simp only [if_neg h]
    constructor
    · exact le_min (by norm_num) (le_max_left _ _)
    · exact min_le_left _ _

theorem apwcPhones_confidence (word_index : ℕ) (wa : WordAlignment) (step : ℚ)
    (phone_index : ℕ) (phones : List String) (pa : PhonemeAlignment)
    (h : pa ∈ apwcPhones word_index wa step phone_index phones) :
    pa.confidence = round3 (max 0.6 (wa.confidence - 0.03)) := by
  induction phones generalizing phone_index with
  | nil => cases h
  | cons p rest ih =>
      simp only [apwcPhones, List.mem_cons] at h
      rcases h with rfl | h
      · rfl
      · exact ih _ h

theorem apwcWords_confidence (word_index : ℕ) (l : List (WordAlignment × WordPhonemes))
    (pa : PhonemeAlignment) (h : pa ∈ apwcWords word_index l) :
    ∃ pr ∈ l, pa.confidence = round3 (max 0.6 (pr.1.confidence - 0.03)) := by
  induction l generalizing word_index with
  | nil => cases h
  | cons p rest ih =>
      simp only [apwcWords, List.mem_append] at h
      rcases h with h | h
      · exact ⟨p, List.mem_cons_self _ _, apwcPhones_confidence _ _ _ _ _ _ h⟩
      · obtain ⟨pr, hpr, he⟩ := ih (word_index + 1) h
        exact ⟨pr, List.mem_cons_of_mem _ hpr, he⟩

theorem apgPhones_confidence (duration_sec step : ℚ) (total word_index cursor : ℕ)
    (phones : List String) (pa : PhonemeAlignment)
    (h : pa ∈ (apgPhones duration_sec step total word_index cursor phones).1) :
    pa.confidence = 0.7 := by
  induction phones generalizing cursor with
  | nil => cases h
  | cons p rest ih =>
      simp only [apgPhones, List.mem_cons] at h
      rcases h with rfl | h
      · rfl
      · exact ih _ h

theorem apgWords_confidence (duration_sec step : ℚ) (total word_index cursor : ℕ)
    (l : List WordPhonemes) (pa : PhonemeAlignment)
    (h : pa ∈ apgWords duration_sec step total word_index cursor l) :
    pa.confidence = 0.7 := by
  induction l generalizing word_index cursor with
  | nil => cases h
  | cons item rest ih =>
      simp only [apgWords, List.mem_append] at h
      rcases h with h | h
      · exact apgPhones_confidence _ _ _ _ _ _ _ h
      · exact ih _ _ h

theorem sum_le_of_forall_le (l : List ℚ) (hi : ℚ) (h : ∀ x ∈ l, x ≤ hi) :
    l.sum ≤ hi * l.length := by
  induction l with
  | nil => simp
  | cons a rest ih =>
      have ha := h a (List.mem_cons_self _ _)
      have hr := ih (fun x hx => h x (List.mem_cons_of_mem _ hx))
      simp only [List.sum_cons, List.length_cons]
      push_cast
      linarith

theorem le_sum_of_forall_le (l : List ℚ) (lo : ℚ) (h : ∀ x ∈ l, lo ≤ x) :
    lo * l.length ≤ l.sum := by
  induction l with
  | nil => simp
  | cons a rest ih =>
      have ha := h a (List.mem_cons_self _ _)
      have hr := ih (fun x hx => h x (List.mem_cons_of_mem _ hx))
      simp only [List.sum_cons, List.length_cons]
      push_cast
      linarith

theorem mean_bounds (l : List ℚ) (lo hi : ℚ) (hne : l ≠ [])
    (h : ∀ x ∈ l, lo ≤ x ∧ x ≤ hi) :
    lo ≤ l.sum / l.length ∧ l.sum / l.length ≤ hi := by
  have hlen : 0 < (l.length : ℚ) := by
    have : 0 < l.length := List.length_pos.mpr hne
    exact_mod_cast this
  constructor
  · rw [le_div_iff₀ hlen]
    exact le_sum_of_forall_le l lo (fun x hx => (h x hx).1)
  · rw [div_le_iff₀ hlen]
    exact sum_le_of_forall_le l hi (fun x hx => (h x hx).2)

theorem le_round3_fix (c x : ℚ) (hc : ∃ z : ℤ, c = (z : ℚ) / 1000) (h : c ≤ x) :
    c ≤ round3 x := by
  obtain ⟨z, rfl⟩ := hc
  exact le_round3 z x h

theorem round3_le_fix (c x : ℚ) (hc : ∃ z : ℤ, c = (z : ℚ) / 1000) (h : x ≤ c) :
    round3 x ≤ c := by
  obtain ⟨z, rfl⟩ := hc
  exact round3_le z x h

/-! ## C6: confidence bounds -/

/-- C6: all produced confidences lie within their clamps, hence within
`[0, 1]`: `_word_confidence` lies in `[0.55, 0.95]` and is exactly `0.55`
when no frame covers any of the word's tokens — for every possible
exponential function, since the clamp dominates; `_token_span_confidence`
lies in `[0.6, 0.95]` with default `0.6`; the uniform backend's word
confidences lie in `[0.75, 0.98]`; English-path phoneme confidences are
`≥ 0.6` (and `≤ 0.97` when word confidences are `≤ 1`); global-fallback
phoneme confidences are exactly `0.7`; and phoneme-grouped word confidences
inherit `[0.6, 0.95]` from their phonemes. -/
theorem confidence_bounds (expFn : ℚ → ℚ) (emissions : List (List ℚ))
    (token_ids : List ℕ) (token_spans : List TokenFrameSpan)
    (tokens : List String) (duration_sec : ℚ)
    (words : List WordAlignment) (wwp : List WordPhonemes)
    (gwp : List WordPhonemes) (gduration : ℚ)
    (gtokens : List String) (gphonemes : List PhonemeAlignment) (gdur2 : ℚ) :
    (0.55 ≤ word_confidence expFn emissions token_ids token_spans ∧
      word_confidence expFn emissions token_ids token_spans ≤ 0.95) ∧
    ((∀ p ∈ token_ids.zip token_spans, p.2.end_frame ≤ p.2.start_frame) →
      word_confidence expFn emissions token_ids token_spans = 0.55) ∧
    (0.6 ≤ token_span_confidence expFn emissions token_ids token_spans ∧
      token_span_confidence expFn emissions token_ids token_spans ≤ 0.95) ∧
    ((∀ p ∈ token_ids.zip token_spans, p.2.end_frame ≤ p.2.start_frame) →
      token_span_confidence expFn emissions token_ids token_spans = 0.6) ∧
    (∀ wa ∈ (uniform_align_words tokens duration_sec).words,
      0.75 ≤ wa.confidence ∧ wa.confidence ≤ 0.98) ∧
    (∀ pa ∈ align_phonemes_with_word_constraints words wwp, 0.6 ≤ pa.confidence) ∧
    ((∀ w ∈ words, w.confidence ≤ 1) →
      ∀ pa ∈ align_phonemes_with_word_constraints words wwp, pa.confidence ≤ 0.97) ∧
    (∀ pa ∈ align_phonemes_globally gwp gduration, pa.confidence = 0.7) ∧
    ((∀ p ∈ gphonemes, 0.6 ≤ p.confidence ∧ p.confidence ≤ 0.95) →
      ∀ wa ∈ group_words_from_phonemes gtokens gphonemes gdur2,
        0.6 ≤ wa.confidence ∧ wa.confidence ≤ 0.95) := by
  refine ⟨word_confidence_bounds expFn emissions token_ids token_spans, ?_,
    token_span_confidence_bounds expFn emissions token_ids token_spans, ?_, ?_, ?_, ?_, ?_, ?_⟩
  · intro hdeg
    simp only [word_confidence]
    rw [span_probs_nil_of_degenerate expFn emissions _ hdeg]
    simp
  · intro hdeg
    simp only [token_span_confidence]
    rw [span_probs_nil_of_degenerate expFn emissions _ hdeg]
    simp
  · intro wa hwa
    by_cases htok : tokens = []
    · simp [uniform_align_words, htok] at hwa
    · simp only [uniform_align_words, if_neg htok] at hwa
      obtain ⟨i, _, rfl⟩ := List.mem_map.mp hwa
      show (0.75 : ℚ) ≤ round3 (max 0.75 (0.98 - (i : ℚ) * 0.01)) ∧
        round3 (max 0.75 (0.98 - (i : ℚ) * 0.01)) ≤ 0.98
      constructor
      · exact le_round3_fix 0.75 _ ⟨750, by norm_num⟩ (le_max_left _ _)
      · refine round3_le_fix 0.98 _ ⟨980, by norm_num⟩ (max_le (by norm_num) ?_)
        have : (0 : ℚ) ≤ (i : ℚ) * 0.01 := by positivity
        linarith
  · intro pa hpa
    obtain ⟨pr, _, he⟩ := apwcWords_confidence 0 (words.zip wwp) pa hpa
    rw [he]
    exact le_round3_fix 0.6 _ ⟨600, by norm_num⟩ (le_max_left _ _)
  · intro hw pa hpa
    obtain ⟨pr, hpr, he⟩ := apwcWords_confidence 0 (words.zip wwp) pa hpa
    have hc : pr.1.confidence ≤ 1 := hw pr.1 (List.of_mem_zip hpr).1
    rw [he]
    exact round3_le_fix 0.97 _ ⟨970, by norm_num⟩ (max_le (by norm_num) (by linarith))
  · intro pa hpa
    simp only [align_phonemes_globally] at hpa
    by_cases ht : (gwp.map (fun item => max 1 item.phonemes.length)).sum = 0
    · rw [if_pos ht] at hpa
      cases hpa
    · rw [if_neg ht] at hpa
      exact apgWords_confidence _ _ _ _ _ _ _ hpa
  · intro hph wa hwa
    simp only [group_words_from_phonemes] at hwa
    obtain ⟨wi, _, rfl⟩ := List.mem_map.mp hwa
    cases hfil : gphonemes.filter (fun p => decide (p.word_index = wi)) with
    | nil =>
        show (0.6 : ℚ) ≤ (0.6 : ℚ) ∧ (0.6 : ℚ) ≤ (0.95 : ℚ)
        norm_num
    | cons q rest =>
        show (0.6 : ℚ) ≤
            round3 (((q :: rest).map (fun p => p.confidence)).sum / ((q :: rest).length : ℚ)) ∧
          round3 (((q :: rest).map (fun p => p.confidence)).sum / ((q :: rest).length : ℚ))
            ≤ (0.95 : ℚ)
        have hmem : ∀ x ∈ (q :: rest).map (fun p => p.confidence),
            (0.6 : ℚ) ≤ x ∧ x ≤ 0.95 := by
          intro x hx
          obtain ⟨p, hp, rfl⟩ := List.mem_map.mp hx
          have : p ∈ gphonemes := by
            have := hfil ▸ hp
            exact (List.mem_filter.mp this).1
          exact hph p this
        have hmean := mean_bounds ((q :: rest).map (fun p => p.confidence)) 0.6 0.95
          (by simp) hmem
        have hlen : (((q :: rest).map (fun p => p.confidence)).length : ℚ)
            = ((q :: rest).length : ℚ) := by simp
        rw [hlen] at hmean
        constructor
        · exact le_round3_fix 0.6 _ ⟨600, by norm_num⟩ hmean.1
        · exact round3_le_fix 0.95 _ ⟨950, by norm_num⟩ hmean.2

/-- C6 (witness): the bound package instantiated at concrete inputs. -/
theorem confidence_bounds_witness :
    (0.55 ≤ word_confidence id [[0]] [0] [⟨0, 0, 1⟩] ∧
      word_confidence id [[0]] [0] [⟨0, 0, 1⟩] ≤ 0.95) ∧
    ((∀ p ∈ [(0 : ℕ)].zip [(⟨0, 0, 1⟩ : TokenFrameSpan)],
        p.2.end_frame ≤ p.2.start_frame) →
      word_confidence id [[0]] [0] [⟨0, 0, 1⟩] = 0.55) ∧
    (0.6 ≤ token_span_confidence id [[0]] [0] [⟨0, 0, 1⟩] ∧
      token_span_confidence id [[0]] [0] [⟨0, 0, 1⟩] ≤ 0.95) ∧
    ((∀ p ∈ [(0 : ℕ)].zip [(⟨0, 0, 1⟩ : TokenFrameSpan)],
        p.2.end_frame ≤ p.2.start_frame) →
      token_span_confidence id [[0]] [0] [⟨0, 0, 1⟩] = 0.6) ∧
    (∀ wa ∈ (uniform_align_words ["a"] 1).words,
      0.75 ≤ wa.confidence ∧ wa.confidence ≤ 0.98) ∧
    (∀ pa ∈ align_phonemes_with_word_constraints [⟨"a", 0, 1, 0.9⟩] [⟨"a", ["ae"]⟩],
      0.6 ≤ pa.confidence) ∧
    ((∀ w ∈ [(⟨"a", 0, 1, 0.9⟩ : WordAlignment)], w.confidence ≤ 1) →
      ∀ pa ∈ align_phonemes_with_word_constraints [⟨"a", 0, 1, 0.9⟩] [⟨"a", ["ae"]⟩],
        pa.confidence ≤ 0.97) ∧
    (∀ pa ∈ align_phonemes_globally [⟨"a", ["ae"]⟩] 1, pa.confidence = 0.7) ∧
    ((∀ p ∈ [(⟨"ae", 0, 0, 1, 0.7⟩ : PhonemeAlignment)],
        0.6 ≤ p.confidence ∧ p.confidence ≤ 0.95) →
      ∀ wa ∈ group_words_from_phonemes ["a"] [⟨"ae", 0, 0, 1, 0.7⟩] 1,
        0.6 ≤ wa.confidence ∧ wa.confidence ≤ 0.95) :=
  confidence_bounds id [[0]] [0] [⟨0, 0, 1⟩] ["a"] 1 [⟨"a", 0, 1, 0.9⟩] [⟨"a", ["ae"]⟩]
    [⟨"a", ["ae"]⟩] 1 ["a"] [⟨"ae", 0, 0, 1, 0.7⟩] 1

/-! ## C4: coverage pinning -/

/-- C4: for every non-empty token list, the word list produced by the
uniform backend, by the CTC-trellis word aligner, and by the phoneme-first
word grouping has its last word's end pinned to exactly the duration, and
its first word's start is nonnegative (for the grouping, provided the
grouped phonemes have nonnegative starts, which the producing aligners
guarantee). -/
theorem coverage_pinned (tokens : List String) (D1 : ℚ)
    (expFn : ℚ → ℚ) (words : List String) (D2 : ℚ) (emissions : List (List ℚ))
    (token_ids : List ℕ) (word_token_spans : List (ℕ × ℕ))
    (token_spans : List TokenFrameSpan)
    (gtokens : List String) (gphonemes : List PhonemeAlignment) (D3 : ℚ)
    (htok : tokens ≠ []) (hw : words ≠ []) (hg : gtokens ≠ [])
    (hp : ∀ p ∈ gphonemes, 0 ≤ p.start_sec) :
    ((uniform_align_words tokens D1).words.getLastD ⟨"", 0, 0, 0⟩).end_sec = D1 ∧
    0 ≤ ((uniform_align_words tokens D1).words.getD 0 ⟨"", 0, 0, 0⟩).start_sec ∧
    ((word_alignments_from_token_spans expFn words D2 emissions token_ids
        word_token_spans token_spans).getLastD ⟨"", 0, 0, 0⟩).end_sec = D2 ∧
    0 ≤ ((word_alignments_from_token_spans expFn words D2 emissions token_ids
        word_token_spans token_spans).getD 0 ⟨"", 0, 0, 0⟩).start_sec ∧
    ((group_words_from_phonemes gtokens gphonemes D3).getLastD ⟨"", 0, 0, 0⟩).end_sec
      = D3 ∧
    0 ≤ ((group_words_from_phonemes gtokens gphonemes D3).getD 0 ⟨"", 0, 0, 0⟩).start_sec := by
  have hn : tokens.length ≠ 0 := fun h => htok (List.length_eq_zero.mp h)
  have hwn : words.length ≠ 0 := fun h => hw (List.length_eq_zero.mp h)
  have hgn : gtokens.length ≠ 0 := fun h => hg (List.length_eq_zero.mp h)
  refine ⟨?_, ?_, ?_, ?_, ?_, ?_⟩
  · simp only [uniform_align_words, if_neg htok]
    rw [getLastD_map_range _ hn]
    simp
  · simp only [uniform_align_words, if_neg htok]
    rw [getD_map_range _ _ 0 (Nat.pos_of_ne_zero hn)]
    show 0 ≤ round3 (D1 / (tokens.length : ℚ) * ((0 : ℕ) : ℚ))
    norm_num [round3_zero]
  · simp only [word_alignments_from_token_spans, if_neg hw]
    rw [getLastD_map_range _ hwn]
    simp
  · simp only [word_alignments_from_token_spans, if_neg hw]
    rw [getD_map_range _ _ 0 (Nat.pos_of_ne_zero hwn)]
    dsimp only
    refine round3_nonneg _ (mul_nonneg ?_ ?_)
    · cases List.filter (fun s => decide (s.start_frame < s.end_frame))
        (List.take ((word_token_spans.getD 0 (0, 0)).2 - (word_token_spans.getD 0 (0, 0)).1)
          (List.drop (word_token_spans.getD 0 (0, 0)).1 token_spans)) with
      | nil => exact le_refl 0
      | cons s tail => exact Nat.cast_nonneg _
    · by_cases hD : 0 < D2
      · rw [if_pos hD]
        exact div_nonneg hD.le (by positivity)
      · rw [if_neg hD]
  · simp only [group_words_from_phonemes]
    rw [getLastD_map_range _ hgn]
    simp
  · simp only [group_words_from_phonemes]
    rw [getD_map_range _ _ 0 (Nat.pos_of_ne_zero hgn)]
    dsimp only
    cases hfil : gphonemes.filter (fun p => decide (p.word_index = 0)) with
    | nil => exact le_refl 0
    | cons q rest =>
        have hq : q ∈ gphonemes := by
          have : q ∈ gphonemes.filter (fun p => decide (p.word_index = 0)) := by
            rw [hfil]; exact List.mem_cons_self _ _
          exact (List.mem_filter.mp this).1
        exact hp q hq

/-- C4 (witness): instantiated at one-token inputs. -/
theorem coverage_pinned_witness :
    ((uniform_align_words ["a"] 1).words.getLastD ⟨"", 0, 0, 0⟩).end_sec = 1 ∧
    0 ≤ ((uniform_align_words ["a"] 1).words.getD 0 ⟨"", 0, 0, 0⟩).start_sec ∧
    ((word_alignments_from_token_spans id ["a"] 1 [[0]] [1] [(0, 1)]
        [⟨0, 0, 1⟩]).getLastD ⟨"", 0, 0, 0⟩).end_sec = 1 ∧
    0 ≤ ((word_alignments_from_token_spans id ["a"] 1 [[0]] [1] [(0, 1)]
        [⟨0, 0, 1⟩]).getD 0 ⟨"", 0, 0, 0⟩).start_sec ∧
    ((group_words_from_phonemes ["a"] [⟨"ae", 0, 0, 1, 0.7⟩] 1).getLastD
        ⟨"", 0, 0, 0⟩).end_sec = 1 ∧
    0 ≤ ((group_words_from_phonemes ["a"] [⟨"ae", 0, 0, 1, 0.7⟩] 1).getD 0
        ⟨"", 0, 0, 0⟩).start_sec :=
  coverage_pinned ["a"] 1 id ["a"] 1 [[0]] [1] [(0, 1)] [⟨0, 0, 1⟩] ["a"]
    [⟨"ae", 0, 0, 1, 0.7⟩] 1 (by simp) (by simp) (by simp)
    (by simp)

/-! ## Trellis lemmas for C1 and C2 -/

theorem vitScore_zero_char (sc : ℕ) (E : ℕ → ℕ → WithBot ℚ) (S : ℕ → ℕ) (j : ℕ)
    (h : vitScore sc E S 0 j ≠ ⊥) :
    (j = 0 ∨ (j = 1 ∧ 2 ≤ sc)) ∧ vitScore sc E S 0 j = E 0 (S j) := by
  by_cases h0 : j = 0
  · subst h0
    exact ⟨Or.inl rfl, by simp [vitScore]⟩
  · by_cases h1 : j = 1 ∧ 2 ≤ sc
    · refine ⟨Or.inr h1, ?_⟩
      simp only [vitScore, if_neg h0, if_pos h1]
      rw [h1.1]
    · exfalso
      apply h
      simp only [vitScore, if_neg h0, if_neg h1]

theorem vitScore_succ (sc : ℕ) (E : ℕ → ℕ → WithBot ℚ) (S : ℕ → ℕ) (t j : ℕ)
    (hj : j < sc) :
    vitScore sc E S (t + 1) j =
      (if (if vitScore sc E S t j < (if 0 < j then vitScore sc E S t (j - 1) else ⊥)
            then (if 0 < j then vitScore sc E S t (j - 1) else ⊥)
            else vitScore sc E S t j) = ⊥ then ⊥
       else (if vitScore sc E S t j < (if 0 < j then vitScore sc E S t (j - 1) else ⊥)
            then (if 0 < j then vitScore sc E S t (j - 1) else ⊥)
            else vitScore sc E S t j) + E (t + 1) (S j)) := by
  simp only [vitScore, if_pos hj]

theorem vitBack_succ (sc : ℕ) (E : ℕ → ℕ → WithBot ℚ) (S : ℕ → ℕ) (t j : ℕ)
    (hj : j < sc) :
    vitBack sc E S (t + 1) j =
      (if (if vitScore sc E S t j < (if 0 < j then vitScore sc E S t (j - 1) else ⊥)
            then (if 0 < j then vitScore sc E S t (j - 1) else ⊥)
            else vitScore sc E S t j) = ⊥ then 0
       else if vitScore sc E S t j < (if 0 < j then vitScore sc E S t (j - 1) else ⊥)
            then j - 1 else j) := by
  simp only [vitBack, if_pos hj]

theorem vitScore_succ_step (sc : ℕ) (E : ℕ → ℕ → WithBot ℚ) (S : ℕ → ℕ) (t j : ℕ)
    (hj : j < sc) (h : vitScore sc E S (t + 1) j ≠ ⊥) :
    (vitBack sc E S (t + 1) j = j ∨ (0 < j ∧ vitBack sc E S (t + 1) j = j - 1)) ∧
    vitScore sc E S t (vitBack sc E S (t + 1) j) ≠ ⊥ ∧
    vitScore sc E S (t + 1) j =
      vitScore sc E S t (vitBack sc E S (t + 1) j) + E (t + 1) (S j) := by
  rw [vitScore_succ sc E S t j hj] at h ⊢
  rw [vitBack_succ sc E S t j hj]
  set stay := vitScore sc E S t j with hstay
  set move := (if 0 < j then vitScore sc E S t (j - 1) else ⊥) with hmove
  by_cases hlt : stay < move
  · have hj0 : 0 < j := by
      by_contra h0
      rw [hmove, if_neg h0] at hlt
      exact absurd hlt (by simp)
    have hmb : move ≠ ⊥ := fun hb => absurd (hb ▸ hlt) (by simp)
    simp only [if_pos hlt, if_neg hmb] at h ⊢
    refine ⟨Or.inr ⟨hj0, trivial⟩, ?_, ?_⟩
    · rw [hmove, if_pos hj0] at hmb
      exact hmb
    · rw [hmove, if_pos hj0]
  · have hsb : stay ≠ ⊥ := by
      intro hb
      rw [if_neg hlt, if_pos hb] at h
      exact h rfl
    simp only [if_neg hlt, if_neg hsb] at h ⊢
    exact ⟨Or.inl trivial, hsb, trivial⟩

theorem vitScore_ge_sc (sc : ℕ) (E : ℕ → ℕ → WithBot ℚ) (S : ℕ → ℕ) (t j : ℕ)
    (hsc : 1 ≤ sc) (hj : ¬ j < sc) : vitScore sc E S t j = ⊥ := by
  cases t with
  | zero =>
      have h0 : j ≠ 0 := by omega
      have h1 : ¬ (j = 1 ∧ 2 ≤ sc) := by omega
      simp only [vitScore, if_neg h0, if_neg h1]
  | succ t => simp only [vitScore, if_neg hj]

theorem vitBestEnd_lt (T sc : ℕ) (E : ℕ → ℕ → WithBot ℚ) (S : ℕ → ℕ) (hsc : 1 ≤ sc) :
    vitBestEnd T sc E S < sc := by
  unfold vitBestEnd
  split <;> omega

theorem vitBestEnd_score (T sc : ℕ) (E : ℕ → ℕ → WithBot ℚ) (S : ℕ → ℕ) (hsc : 1 ≤ sc) :
    vitScore sc E S (T - 1) (vitBestEnd T sc E S) = vitEndMax T sc E S := by
  unfold vitBestEnd vitEndMax
  by_cases hc : 2 ≤ sc ∧
      vitScore sc E S (T - 1) (sc - 1) < vitScore sc E S (T - 1) (sc - 2)
  · rw [if_pos hc]
    exact (max_eq_right hc.2.le).symm
  · rw [if_neg hc]
    push_neg at hc
    by_cases h2 : 2 ≤ sc
    · exact (max_eq_left (hc h2)).symm
    · have h1 : sc - 1 = sc - 2 := by omega
      rw [h1]
      exact (max_self _).symm

theorem vitScore_reach (T sc : ℕ) (E : ℕ → ℕ → WithBot ℚ) (S : ℕ → ℕ)
    (hfin : ∀ t j, t < T → j < sc → E t (S j) ≠ ⊥) :
    ∀ t j, t < T → j < sc → j ≤ t + 1 → vitScore sc E S t j ≠ ⊥ := by
  intro t
  induction t with
  | zero =>
      intro j ht hj hle
      match j, hle with
      | 0, _ =>
          simpa [vitScore] using hfin 0 0 ht hj
      | 1, _ =>
          have h2 : 2 ≤ sc := hj
          simpa [vitScore, h2] using hfin 0 1 ht hj
  | succ t ih =>
      intro j ht hj hle
      have htT : t < T := by omega
      rw [vitScore_succ sc E S t j hj]
      have hE : E (t + 1) (S j) ≠ ⊥ := hfin _ _ ht hj
      set stay := vitScore sc E S t j with hstay
      set move := (if 0 < j then vitScore sc E S t (j - 1) else ⊥) with hmove
      have hbest : (if stay < move then move else stay) ≠ ⊥ := by
        by_cases hlt : stay < move
        · rw [if_pos hlt]
          intro hb
          rw [hb] at hlt
          exact absurd hlt (by simp)
        · rw [if_neg hlt]
          by_cases hjle : j ≤ t + 1
          · exact hstay ▸ ih j htT hj hjle
          · have hj0 : 0 < j := by omega
            have hjm : j - 1 ≤ t + 1 := by omega
            have hjm2 : j - 1 < sc := by omega
            have hmb : move ≠ ⊥ := by
              rw [hmove, if_pos hj0]
              exact ih (j - 1) htT hjm2 hjm
            intro hb
            rw [hb] at hlt
            exact hmb (le_bot_iff.mp (le_of_not_lt hlt))
      rw [if_neg hbest]
      intro hsum
      rcases WithBot.add_eq_bot.mp hsum with hb | hb
      · exact hbest hb
      · exact hE hb

theorem vitBestEnd_reach (T sc : ℕ) (E : ℕ → ℕ → WithBot ℚ) (S : ℕ → ℕ)
    (hsc : 1 ≤ sc) (hT : 1 ≤ T) (hreach : sc - 2 ≤ T)
    (hfin : ∀ t j, t < T → j < sc → E t (S j) ≠ ⊥) :
    vitScore sc E S (T - 1) (vitBestEnd T sc E S) ≠ ⊥ := by
  have hT1 : T - 1 < T := by omega
  unfold vitBestEnd
  by_cases hc : 2 ≤ sc ∧
      vitScore sc E S (T - 1) (sc - 1) < vitScore sc E S (T - 1) (sc - 2)
  · rw [if_pos hc]
    intro hb
    rw [hb] at hc
    exact absurd hc.2 (by simp)
  · rw [if_neg hc]
    push_neg at hc
    by_cases h2 : 2 ≤ sc
    · have hs2 : vitScore sc E S (T - 1) (sc - 2) ≠ ⊥ :=
        vitScore_reach T sc E S hfin (T - 1) (sc - 2) hT1 (by omega) (by omega)
      have hle := hc h2
      intro hb
      rw [hb] at hle
      exact hs2 (le_bot_iff.mp hle)
    · have h1 : sc = 1 := by omega
      subst h1
      exact vitScore_reach T 1 E S hfin (T - 1) 0 hT1 (by omega) (by omega)

theorem vitBack_lt (sc : ℕ) (E : ℕ → ℕ → WithBot ℚ) (S : ℕ → ℕ) (f j : ℕ)
    (hsc : 1 ≤ sc) : vitBack sc E S f j < sc := by
  cases f with
  | zero => simpa [vitBack] using hsc
  | succ t =>
      by_cases hj : j < sc
      · rw [vitBack_succ sc E S t j hj]
        split_ifs <;> omega
      · simp only [vitBack, if_neg hj]
        omega

theorem vitCursor_lt (T sc : ℕ) (E : ℕ → ℕ → WithBot ℚ) (S : ℕ → ℕ) (hsc : 1 ≤ sc) :
    ∀ k, vitCursor T sc E S k < sc := by
  intro k
  cases k with
  | zero => exact vitBestEnd_lt T sc E S hsc
  | succ k => exact vitBack_lt sc E S _ _ hsc

theorem vit_trace_inv (T sc : ℕ) (E : ℕ → ℕ → WithBot ℚ) (S : ℕ → ℕ)
    (hsc : 1 ≤ sc) (_hT : 1 ≤ T)
    (hM : vitScore sc E S (T - 1) (vitBestEnd T sc E S) ≠ ⊥) :
    ∀ k, k < T →
      vitCursor T sc E S k < sc ∧
      vitScore sc E S (T - 1 - k) (vitCursor T sc E S k) ≠ ⊥ ∧
      vitScore sc E S (T - 1 - k) (vitCursor T sc E S k) + vitTail T sc E S k =
        vitScore sc E S (T - 1) (vitBestEnd T sc E S) := by
  intro k
  induction k with
  | zero =>
      intro _
      refine ⟨vitBestEnd_lt T sc E S hsc, ?_, ?_⟩
      · simpa [vitCursor] using hM
      · simp [vitCursor, vitTail]
  | succ k ih =>
      intro hk1
      have hk : k < T := by omega
      obtain ⟨hlt, hne, hsum⟩ := ih hk
      have hfr : T - 1 - k = (T - 1 - (k + 1)) + 1 := by omega
      rw [hfr] at hne hsum
      obtain ⟨hbk, hne', heq⟩ :=
        vitScore_succ_step sc E S (T - 1 - (k + 1)) (vitCursor T sc E S k) hlt hne
      have hc1 : vitCursor T sc E S (k + 1) =
          vitBack sc E S ((T - 1 - (k + 1)) + 1) (vitCursor T sc E S k) := by
        simp only [vitCursor]
        rw [← hfr]
      refine ⟨vitCursor_lt T sc E S hsc (k + 1), ?_, ?_⟩
      · rw [hc1]
        exact hne'
      · rw [hc1]
        simp only [vitTail]
        rw [hfr, ← add_assoc, ← heq]
        exact hsum

theorem vit_step_rel (T sc : ℕ) (E : ℕ → ℕ → WithBot ℚ) (S : ℕ → ℕ)
    (hsc : 1 ≤ sc) (hT : 1 ≤ T)
    (hM : vitScore sc E S (T - 1) (vitBestEnd T sc E S) ≠ ⊥) :
    ∀ k, k + 1 < T →
      vitCursor T sc E S (k + 1) = vitCursor T sc E S k ∨
      (0 < vitCursor T sc E S k ∧
        vitCursor T sc E S (k + 1) = vitCursor T sc E S k - 1) := by
  intro k hk1
  obtain ⟨hlt, hne, _⟩ := vit_trace_inv T sc E S hsc hT hM k (by omega)
  have hfr : T - 1 - k = (T - 1 - (k + 1)) + 1 := by omega
  rw [hfr] at hne
  obtain ⟨hbk, _, _⟩ :=
    vitScore_succ_step sc E S (T - 1 - (k + 1)) (vitCursor T sc E S k) hlt hne
  have hc1 : vitCursor T sc E S (k + 1) =
      vitBack sc E S ((T - 1 - (k + 1)) + 1) (vitCursor T sc E S k) := by
    simp only [vitCursor]
    rw [← hfr]
  rcases hbk with hb | ⟨h0, hb⟩
  · left
    rw [hc1, hb]
  · right
    exact ⟨h0, by rw [hc1, hb]⟩

theorem pathScore_vitPath (T sc : ℕ) (E : ℕ → ℕ → WithBot ℚ) (S : ℕ → ℕ) :
    ∀ m, m ≤ T →
      pathScore E S (T - m)
        ((List.range m).map (fun i => vitCursor T sc E S (m - 1 - i))) =
      vitTail T sc E S m := by
  intro m
  induction m with
  | zero => intro _; simp [pathScore, vitTail]
  | succ m ih =>
      intro hm
      have hlist : (List.range (m + 1)).map (fun i => vitCursor T sc E S (m - i)) =
          vitCursor T sc E S m ::
            (List.range m).map (fun i => vitCursor T sc E S (m - 1 - i)) := by
        rw [List.range_succ_eq_map]
        simp only [List.map_cons, List.map_map, Nat.sub_zero]
        congr 1
        apply List.map_congr_left
        intro i _
        simp only [Function.comp_apply]
        congr 1
        omega
      have harg : ∀ i : ℕ, m + 1 - 1 - i = m - i := fun i => by omega
      have hfix : (List.range (m + 1)).map (fun i => vitCursor T sc E S (m + 1 - 1 - i)) =
          (List.range (m + 1)).map (fun i => vitCursor T sc E S (m - i)) := by
        apply List.map_congr_left
        intro i _
        rw [harg i]
      rw [hfix, hlist]
      simp only [pathScore]
      have h1 : T - (m + 1) + 1 = T - m := by omega
      have h2 : T - (m + 1) = T - 1 - m := by omega
      rw [h1, ih (by omega), h2]
      simp only [vitTail]

theorem vitTail_top (T sc : ℕ) (E : ℕ → ℕ → WithBot ℚ) (S : ℕ → ℕ)
    (hsc : 1 ≤ sc) (hT : 1 ≤ T)
    (hM : vitScore sc E S (T - 1) (vitBestEnd T sc E S) ≠ ⊥) :
    vitTail T sc E S T = vitScore sc E S (T - 1) (vitBestEnd T sc E S) := by
  obtain ⟨hlt, hne, hsum⟩ := vit_trace_inv T sc E S hsc hT hM (T - 1) (by omega)
  have h0 : T - 1 - (T - 1) = 0 := by omega
  rw [h0] at hne hsum
  obtain ⟨-, hchar⟩ := vitScore_zero_char sc E S _ hne
  have hTT : T = (T - 1) + 1 := by omega
  calc vitTail T sc E S T = vitTail T sc E S ((T - 1) + 1) := by rw [← hTT]
    _ = E (T - 1 - (T - 1)) (S (vitCursor T sc E S (T - 1))) +
          vitTail T sc E S (T - 1) := by simp only [vitTail]
    _ = vitScore sc E S 0 (vitCursor T sc E S (T - 1)) + vitTail T sc E S (T - 1) := by
          rw [h0, ← hchar]
    _ = vitScore sc E S (T - 1) (vitBestEnd T sc E S) := hsum

/-! ## C1: Viterbi optimality -/

/-- C1 (amended): for every emission matrix with `T ≥ 1` frames and every
non-empty state-symbol sequence, provided the maximum of the DP score table
over the two end states at the last frame is not `-inf`, the accumulated
log-probability of the path returned by `viterbi_state_path` equals that
maximum. -/
theorem viterbi_path_score_eq_end_max (emissions : List (List (WithBot ℚ)))
    (state_symbols : List ℕ)
    (hT : 1 ≤ emissions.length) (hS : 1 ≤ state_symbols.length)
    (hM : vitEndMax emissions.length state_symbols.length (emisFun emissions)
      (symFun state_symbols) ≠ ⊥) :
    ∃ path, viterbi_state_path emissions state_symbols = Except.ok path ∧
      pathScore (emisFun emissions) (symFun state_symbols) 0 path =
        vitEndMax emissions.length state_symbols.length (emisFun emissions)
          (symFun state_symbols) := by
  have hM' : vitScore state_symbols.length (emisFun emissions) (symFun state_symbols)
      (emissions.length - 1)
      (vitBestEnd emissions.length state_symbols.length (emisFun emissions)
        (symFun state_symbols)) ≠ ⊥ := by
    rw [vitBestEnd_score _ _ _ _ hS]
    exact hM
  refine ⟨vitPath emissions.length state_symbols.length (emisFun emissions)
    (symFun state_symbols), ?_, ?_⟩
  · simp only [viterbi_state_path]
    rw [if_neg (by omega), if_neg (by omega)]
  · have hpath : pathScore (emisFun emissions) (symFun state_symbols) 0
        (vitPath emissions.length state_symbols.length (emisFun emissions)
          (symFun state_symbols)) =
        vitTail emissions.length state_symbols.length (emisFun emissions)
          (symFun state_symbols) emissions.length := by
      have h := pathScore_vitPath emissions.length state_symbols.length
        (emisFun emissions) (symFun state_symbols) emissions.length (le_refl _)
      rw [Nat.sub_self] at h
      exact h
    rw [hpath, vitTail_top _ _ _ _ hS hT hM', vitBestEnd_score _ _ _ _ hS]

/-- C1 (witness): a one-frame, one-state instance with finite emission
where the path's score equals the end-state maximum. -/
theorem viterbi_path_score_eq_end_max_witness :
    ∃ path, viterbi_state_path [[((0 : ℚ) : WithBot ℚ)]] [0] = Except.ok path ∧
      pathScore (emisFun [[((0 : ℚ) : WithBot ℚ)]]) (symFun [0]) 0 path =
        vitEndMax [[((0 : ℚ) : WithBot ℚ)]].length [(0 : ℕ)].length
          (emisFun [[((0 : ℚ) : WithBot ℚ)]]) (symFun [0]) :=
  viterbi_path_score_eq_end_max [[((0 : ℚ) : WithBot ℚ)]] [0] (by simp) (by simp)
    (by simp [vitEndMax, vitScore, emisFun, symFun])

/-- C1 (counterexample): with `T = 1`, finite emissions `[[0, 0, 0]]` and
the expanded sequence of the two tokens `[1, 2]`, both end states are
unreachable, so the DP maximum is `-inf`, while the traced path `[4]` has
the finite accumulated log-probability `0` — the claimed equality fails. -/
theorem viterbi_optimality_counterexample :
    viterbi_state_path [[((0 : ℚ) : WithBot ℚ), ((0 : ℚ) : WithBot ℚ),
        ((0 : ℚ) : WithBot ℚ)]] (build_state_symbols [1, 2] 0) = Except.ok [4] ∧
    pathScore (emisFun [[((0 : ℚ) : WithBot ℚ), ((0 : ℚ) : WithBot ℚ),
        ((0 : ℚ) : WithBot ℚ)]]) (symFun (build_state_symbols [1, 2] 0)) 0 [4] =
      ((0 : ℚ) : WithBot ℚ) ∧
    vitEndMax 1 5 (emisFun [[((0 : ℚ) : WithBot ℚ), ((0 : ℚ) : WithBot ℚ),
        ((0 : ℚ) : WithBot ℚ)]]) (symFun (build_state_symbols [1, 2] 0)) = ⊥ ∧
    ((0 : ℚ) : WithBot ℚ) ≠ ⊥ := by
  simp only [WithBot.coe_zero]
  have hbuild : build_state_symbols [1, 2] 0 = [0, 1, 0, 2, 0] := rfl
  rw [hbuild]
  set E0 := emisFun [[(0 : WithBot ℚ), 0, 0]] with hE0
  set S0 := symFun [0, 1, 0, 2, 0] with hS0
  have hs4 : vitScore 5 E0 S0 0 4 = ⊥ := by simp [vitScore]
  have hs3 : vitScore 5 E0 S0 0 3 = ⊥ := by simp [vitScore]
  have hbe : vitBestEnd 1 5 E0 S0 = 4 := by
    unfold vitBestEnd
    rw [if_neg]
    intro hcon
    rw [show (5 : ℕ) - 1 = 4 from rfl, show (5 : ℕ) - 2 = 3 from rfl,
      show (1 : ℕ) - 1 = 0 from rfl, hs4, hs3] at hcon
    exact absurd hcon.2 (by simp)
  refine ⟨?_, ?_, ?_, by simp⟩
  · simp only [viterbi_state_path]
    rw [if_neg (by simp), if_neg (by simp)]
    have hpath : vitPath 1 5 E0 S0 = [4] := by
      simp [vitPath, vitCursor, hbe, show List.range 1 = [0] from rfl]
    show Except.ok (vitPath [[(0 : WithBot ℚ), 0, 0]].length
        [(0 : ℕ), 1, 0, 2, 0].length E0 S0) = Except.ok [4]
    rw [show [[(0 : WithBot ℚ), 0, 0]].length = 1 from rfl,
      show [(0 : ℕ), 1, 0, 2, 0].length = 5 from rfl, hpath]
  · simp [pathScore, hE0, hS0, emisFun, symFun]
  · unfold vitEndMax
    rw [show (5 : ℕ) - 1 = 4 from rfl, show (5 : ℕ) - 2 = 3 from rfl,
      show (1 : ℕ) - 1 = 0 from rfl, hs4, hs3]
    simp

/-! ## C2: state-path validity -/

theorem build_state_symbols_length (token_symbols : List ℕ) (blank_id : ℕ) :
    (build_state_symbols token_symbols blank_id).length = 2 * token_symbols.length + 1 := by
  have h : ∀ l : List ℕ,
      (l.foldr (fun token_symbol rest => token_symbol :: blank_id :: rest) []).length
        = 2 * l.length := by
    intro l
    induction l with
    | nil => rfl
    | cons a rest ih =>
        simp only [List.foldr_cons, List.length_cons, ih]
        omega
  simp only [build_state_symbols, List.length_cons, h]

/-- C2 (amended): for finite emissions with `T ≥ 1` over the expanded state
sequence built from `N` tokens, the returned path has length exactly `T` and
every entry is an index in `[0, 2N+1)` (the spec's `[0, 2N)` wrongly
excludes the final blank state `2N`); when additionally `T ≥ 2N − 1` (so
the end states are reachable), the first entry is 0 or 1 and consecutive
entries differ by 0 (stay) or +1 (advance) only. -/
theorem viterbi_path_valid (emissions : List (List (WithBot ℚ))) (tokens : List ℕ)
    (blank_id : ℕ) (hT : 1 ≤ emissions.length)
    (hfin : ∀ t j, t < emissions.length → j < 2 * tokens.length + 1 →
      emisFun emissions t (symFun (build_state_symbols tokens blank_id) j) ≠ ⊥) :
    ∃ path,
      viterbi_state_path emissions (build_state_symbols tokens blank_id) =
        Except.ok path ∧
      path.length = emissions.length ∧
      (∀ x ∈ path, x < 2 * tokens.length + 1) ∧
      (2 * tokens.length ≤ emissions.length + 1 →
        ((path.getD 0 0 = 0 ∨ path.getD 0 0 = 1) ∧
        ∀ t, t + 1 < emissions.length →
          (path.getD (t + 1) 0 = path.getD t 0 ∨
            path.getD (t + 1) 0 = path.getD t 0 + 1))) := by
  set T := emissions.length with hTdef
  set S := build_state_symbols tokens blank_id with hSdef
  have hsclen : S.length = 2 * tokens.length + 1 := build_state_symbols_length tokens blank_id
  set sc := S.length with hscdef
  have hsc1 : 1 ≤ sc := by omega
  set E := emisFun emissions with hEdef
  set Sf := symFun S with hSfdef
  have hfin' : ∀ t j, t < T → j < sc → E t (Sf j) ≠ ⊥ := by
    intro t j ht hj
    exact hfin t j ht (by omega)
  refine ⟨vitPath T sc E Sf, ?_, ?_, ?_, ?_⟩
  · simp only [viterbi_state_path]
    rw [if_neg (by omega), if_neg (by omega)]
  · simp [vitPath]
  · intro x hx
    simp only [vitPath, List.mem_map] at hx
    obtain ⟨t, -, rfl⟩ := hx
    have := vitCursor_lt T sc E Sf hsc1 (T - 1 - t)
    omega
  · intro hreach
    have hM : vitScore sc E Sf (T - 1) (vitBestEnd T sc E Sf) ≠ ⊥ :=
      vitBestEnd_reach T sc E Sf hsc1 hT (by omega) hfin'
    constructor
    · have hget : (vitPath T sc E Sf).getD 0 0 = vitCursor T sc E Sf (T - 1 - 0) := by
        simp only [vitPath]
        exact getD_map_range T _ 0 (by omega) 0
      obtain ⟨-, hne, -⟩ := vit_trace_inv T sc E Sf hsc1 hT hM (T - 1) (by omega)
      rw [show T - 1 - (T - 1) = 0 from by omega] at hne
      obtain ⟨hchar, -⟩ := vitScore_zero_char sc E Sf _ hne
      rw [hget, Nat.sub_zero]
      rcases hchar with h0 | ⟨h1, -⟩
      · exact Or.inl h0
      · exact Or.inr h1
    · intro t ht1
      have hg1 : (vitPath T sc E Sf).getD (t + 1) 0 =
          vitCursor T sc E Sf (T - 1 - (t + 1)) := by
        simp only [vitPath]
        exact getD_map_range T _ (t + 1) (by omega) 0
      have hg0 : (vitPath T sc E Sf).getD t 0 = vitCursor T sc E Sf (T - 1 - t) := by
        simp only [vitPath]
        exact getD_map_range T _ t (by omega) 0
      have hk : T - 1 - t = (T - 1 - (t + 1)) + 1 := by omega
      have hstep := vit_step_rel T sc E Sf hsc1 hT hM (T - 1 - (t + 1)) (by omega)
      rw [hg1, hg0, hk]
      rcases hstep with h | ⟨h0, h⟩
      · exact Or.inl h.symm
      · right
        omega

/-- C2 (counterexample): two concrete decodes with finite emissions refute
the claim.  First, with one token and blank-favoring emissions the path ends
in the final blank state `2 = 2N`, outside the claimed range `[0, 2N)`.
Second, with two tokens and `T = 1` the end states are unreachable and the
traced path `[4]` starts at state 4, violating both the claimed range and
the claimed first-entry property. -/
theorem viterbi_state_range_counterexample :
    (viterbi_state_path [[((2 : ℚ) : WithBot ℚ), ((-10 : ℚ) : WithBot ℚ)],
        [((2 : ℚ) : WithBot ℚ), ((-10 : ℚ) : WithBot ℚ)]]
        (build_state_symbols [1] 0) = Except.ok [1, 2] ∧
      ¬ ((2 : ℕ) < 2 * [1].length)) ∧
    (viterbi_state_path [[((0 : ℚ) : WithBot ℚ), ((0 : ℚ) : WithBot ℚ),
        ((0 : ℚ) : WithBot ℚ)]] (build_state_symbols [1, 2] 0) = Except.ok [4] ∧
      ¬ ((4 : ℕ) = 0 ∨ (4 : ℕ) = 1) ∧ ¬ ((4 : ℕ) < 2 * [1, 2].length)) := by
  constructor
  · have hbuild : build_state_symbols [1] 0 = [0, 1, 0] := rfl
    rw [hbuild]
    set E1 := emisFun [[((2 : ℚ) : WithBot ℚ), ((-10 : ℚ) : WithBot ℚ)],
      [((2 : ℚ) : WithBot ℚ), ((-10 : ℚ) : WithBot ℚ)]] with hE1
    set S1 := symFun [0, 1, 0] with hS1
    have hs00 : vitScore 3 E1 S1 0 0 = ((2 : ℚ) : WithBot ℚ) := by
      simp [vitScore, hE1, hS1, emisFun, symFun]
    have hs01 : vitScore 3 E1 S1 0 1 = ((-10 : ℚ) : WithBot ℚ) := by
      simp [vitScore, hE1, hS1, emisFun, symFun]
    have hs02 : vitScore 3 E1 S1 0 2 = ⊥ := by
      simp [vitScore]
    have hE11 : E1 1 (S1 1) = ((-10 : ℚ) : WithBot ℚ) := by
      simp [hE1, hS1, emisFun, symFun]
    have hE12 : E1 1 (S1 2) = ((2 : ℚ) : WithBot ℚ) := by
      simp [hE1, hS1, emisFun, symFun]
    have hlt1 : ((-10 : ℚ) : WithBot ℚ) < ((2 : ℚ) : WithBot ℚ) :=
      WithBot.coe_lt_coe.mpr (by norm_num)
    have hlt2 : (⊥ : WithBot ℚ) < ((-10 : ℚ) : WithBot ℚ) := WithBot.bot_lt_coe _
    have hs11 : vitScore 3 E1 S1 1 1 = ((-8 : ℚ) : WithBot ℚ) := by
      show vitScore 3 E1 S1 (0 + 1) 1 = ((-8 : ℚ) : WithBot ℚ)
      rw [vitScore_succ 3 E1 S1 0 1 (by norm_num)]
      rw [show (1 : ℕ) - 1 = 0 from rfl, if_pos (by norm_num : 0 < 1)]
      rw [hs00, hs01, if_pos hlt1, if_neg (WithBot.coe_ne_bot),
        show (0 : ℕ) + 1 = 1 from rfl, hE11, ← WithBot.coe_add]
      norm_num
    have hs12 : vitScore 3 E1 S1 1 2 = ((-8 : ℚ) : WithBot ℚ) := by
      show vitScore 3 E1 S1 (0 + 1) 2 = ((-8 : ℚ) : WithBot ℚ)
      rw [vitScore_succ 3 E1 S1 0 2 (by norm_num)]
      rw [show (2 : ℕ) - 1 = 1 from rfl, if_pos (by norm_num : 0 < 2)]
      rw [hs01, hs02, if_pos hlt2, if_neg (WithBot.coe_ne_bot),
        show (0 : ℕ) + 1 = 1 from rfl, hE12, ← WithBot.coe_add]
      norm_num
    have hback12 : vitBack 3 E1 S1 1 2 = 1 := by
      show vitBack 3 E1 S1 (0 + 1) 2 = 1
      rw [vitBack_succ 3 E1 S1 0 2 (by norm_num)]
      rw [show (2 : ℕ) - 1 = 1 from rfl, if_pos (by norm_num : 0 < 2)]
      rw [hs01, hs02, if_pos hlt2, if_neg (WithBot.coe_ne_bot), if_pos hlt2]
    have hbe1 : vitBestEnd 2 3 E1 S1 = 2 := by
      unfold vitBestEnd
      rw [if_neg]
      intro hcon
      norm_num [hs12, hs11, WithBot.coe_lt_coe] at hcon
    have hvp : vitPath 2 3 E1 S1 = [1, 2] := by
      norm_num [vitPath, show List.range 2 = [0, 1] from rfl, vitCursor, hbe1, hback12]
    constructor
    · simp only [viterbi_state_path]
      rw [if_neg (by simp), if_neg (by simp)]
      show Except.ok (vitPath 2 3 E1 S1) = Except.ok [1, 2]
      rw [hvp]
    · simp
  · have hbuild : build_state_symbols [1, 2] 0 = [0, 1, 0, 2, 0] := rfl
    rw [hbuild]
    set E0 := emisFun [[((0 : ℚ) : WithBot ℚ), ((0 : ℚ) : WithBot ℚ),
      ((0 : ℚ) : WithBot ℚ)]] with hE0
    set S0 := symFun [0, 1, 0, 2, 0] with hS0
    have hs4 : vitScore 5 E0 S0 0 4 = ⊥ := by simp [vitScore]
    have hs3 : vitScore 5 E0 S0 0 3 = ⊥ := by simp [vitScore]
    have hbe : vitBestEnd 1 5 E0 S0 = 4 := by
      unfold vitBestEnd
      rw [if_neg]
      intro hcon
      rw [show (5 : ℕ) - 1 = 4 from rfl, show (5 : ℕ) - 2 = 3 from rfl,
        show (1 : ℕ) - 1 = 0 from rfl, hs4, hs3] at hcon
      exact absurd hcon.2 (by simp)
    refine ⟨?_, by norm_num, by norm_num⟩
    simp only [viterbi_state_path]
    rw [if_neg (by simp), if_neg (by simp)]
    have hpath : vitPath 1 5 E0 S0 = [4] := by
      simp [vitPath, vitCursor, hbe, show List.range 1 = [0] from rfl]
    show Except.ok (vitPath 1 5 E0 S0) = Except.ok [4]
    rw [hpath]

/-- C2 (witness): the validity package instantiated at a two-frame decode
over one token. -/
theorem viterbi_path_valid_witness :
    ∃ path,
      viterbi_state_path [[((2 : ℚ) : WithBot ℚ), ((-10 : ℚ) : WithBot ℚ)],
          [((2 : ℚ) : WithBot ℚ), ((-10 : ℚ) : WithBot ℚ)]]
        (build_state_symbols [1] 0) = Except.ok path ∧
      path.length = [[((2 : ℚ) : WithBot ℚ), ((-10 : ℚ) : WithBot ℚ)],
          [((2 : ℚ) : WithBot ℚ), ((-10 : ℚ) : WithBot ℚ)]].length ∧
      (∀ x ∈ path, x < 2 * [1].length + 1) ∧
      (2 * [1].length ≤ [[((2 : ℚ) : WithBot ℚ), ((-10 : ℚ) : WithBot ℚ)],
          [((2 : ℚ) : WithBot ℚ), ((-10 : ℚ) : WithBot ℚ)]].length + 1 →
        ((path.getD 0 0 = 0 ∨ path.getD 0 0 = 1) ∧
        ∀ t, t + 1 < [[((2 : ℚ) : WithBot ℚ), ((-10 : ℚ) : WithBot ℚ)],
            [((2 : ℚ) : WithBot ℚ), ((-10 : ℚ) : WithBot ℚ)]].length →
          (path.getD (t + 1) 0 = path.getD t 0 ∨
            path.getD (t + 1) 0 = path.getD t 0 + 1))) :=
  viterbi_path_valid [[((2 : ℚ) : WithBot ℚ), ((-10 : ℚ) : WithBot ℚ)],
      [((2 : ℚ) : WithBot ℚ), ((-10 : ℚ) : WithBot ℚ)]] [1] 0 (by simp)
    (by intro t j ht hj
        have ht2 : t < 2 := by simpa using ht
        have hj3 : j < 3 := by simpa using hj
        interval_cases t <;> interval_cases j <;>
          simp [emisFun, symFun, show build_state_symbols [1] 0 = [0, 1, 0] from rfl])
